import Mathlib

/-!
Verification development for the anchorna repository (anchor search in
biological sequences).  The definitions below are a shallow embedding of
`anchorna/core.py` and `anchorna/util.py`: Python strings become `List Char`,
Python ints become `Int`/`Nat`, Python floats (thresholds) become `ℚ`,
fallible code returns `Except PyError`.  The substitution matrix
(`sugar.data.submat`, external data) is threaded as a parameter
`sm : Char → Char → Int`.
-/

set_option maxRecDepth 10000

namespace Anchorna

/-- Python exception classes that can be raised by the embedded code. -/
inductive PyError where
  | typeError (msg : String)
  | valueError (msg : String)
  | keyError (msg : String)
  | indexError (msg : String)
  | attributeError (msg : String)
  | assertionError (msg : String)
  | statisticsError (msg : String)
  deriving Repr, DecidableEq

/-- Decidable equality for `Except` results, used to state concrete
evaluations of the embedded functions. -/
instance {e a : Type} [DecidableEq e] [DecidableEq a] : DecidableEq (Except e a) := fun x y =>
  match x, y with
  | .ok u, .ok v =>
    if h : u = v then isTrue (h ▸ rfl)
    else isFalse (fun hc => h (Except.ok.inj hc))
  | .error u, .error v =>
    if h : u = v then isTrue (h ▸ rfl)
    else isFalse (fun hc => h (Except.error.inj hc))
  | .ok _, .error _ => isFalse (fun hc => Except.noConfusion hc)
  | .error _, .ok _ => isFalse (fun hc => Except.noConfusion hc)

/-- `util.corrscore(seq1, seq2, gap='-', sm)`:
sum of `sm[nt1][nt2]` over `zip(seq1, seq2)` skipping pairs where either
character equals the gap character.  (`zip` truncates to the shorter word.) -/
def corrscore (seq1 seq2 : List Char) (gap : Char) (sm : Char → Char → Int) : Int :=
  (((seq1.zip seq2).filter (fun p => p.1 ≠ gap && p.2 ≠ gap)).map
    (fun p => sm p.1 p.2)).sum

/-- Python slice `s[i:j]` on a list with nonnegative bounds (clamped). -/
def pySlice (s : List Char) (i j : Nat) : List Char :=
  (s.take j).drop i

/-- Python lexicographic `<` on `(score, index)` tuples as compared inside
`maxes` (the call in `shift_and_find_best_word` passes no `key`, so whole
tuples are compared). -/
def tupLt (a b : Int × Nat) : Bool :=
  a.1 < b.1 || (a.1 == b.1 && a.2 < b.2)

/-- Loop body of `core.maxes`: `for s in a: if k > kmax: kmax, max_list = k, [s]
elif k == kmax: max_list.append(s)`. -/
def maxesLoop (kmax : Int × Nat) (maxList : List (Int × Nat)) :
    List (Int × Nat) → List (Int × Nat)
  | [] => maxList
  | s :: rest =>
    if tupLt kmax s then maxesLoop s [s] rest
    else if s == kmax then maxesLoop kmax (maxList ++ [s]) rest
    else maxesLoop kmax maxList rest

/-- `core.maxes(a, key=None, default=...)`: returns the list of all maximal
values of `a` under Python tuple comparison, or `none` when `a` is empty
(in which case Python returns the caller-supplied `default`, which for
`shift_and_find_best_word` is the bare tuple `(0, None)`). -/
def maxes : List (Int × Nat) → Option (List (Int × Nat))
  | [] => none
  | a₀ :: rest => some (maxesLoop a₀ [] (a₀ :: rest))

/-- Python `<` on the `(abs(ind - starti), sim, ind)` triples built in
`shift_and_find_best_word`'s tie-break `min`. -/
def tripLt (a b : Int × Int × Nat) : Bool :=
  a.1 < b.1 || (a.1 == b.1 && (a.2.1 < b.2.1 || (a.2.1 == b.2.1 && a.2.2 < b.2.2)))

/-- Python `min` over a nonempty list (first minimal element wins). -/
def pyMinTrip (t₀ : Int × Int × Nat) (ts : List (Int × Int × Nat)) : Int × Int × Nat :=
  ts.foldl (fun acc t => if tripLt t acc then t else acc) t₀

/-- `core.shift_and_find_best_word(seq, word, starti, w, sm, maxshift,
maxshift_right)`.  Scores `seq[i:i+w]` against `word` for every `i` in
`range(max(0, starti-maxshift_right), min(len(seq)-w+1, starti+maxshift+1))`,
collects the maxima with `maxes` (no `key`, hence on whole `(score, i)`
tuples) and applies the `min`-based tie-break.  When the range is empty,
`maxes` returns the default tuple `(0, None)` and the generator
`for sim, ind in siminds` then tries to unpack the integer `0`:
a `TypeError` is raised. -/
def shiftAndFindBestWord (seq word : List Char) (starti w : Nat)
    (sm : Char → Char → Int) (maxshift? maxshiftRight? : Option Nat) :
    Except PyError (Int × Nat) :=
  let maxshift := maxshift?.getD seq.length
  let maxshiftRight := maxshiftRight?.getD maxshift
  let lo : Int := max 0 ((starti : Int) - maxshiftRight)
  let hi : Int := min ((seq.length : Int) - w + 1) ((starti : Int) + maxshift + 1)
  let idxs : List Nat :=
    if hi ≤ lo then [] else (List.range (hi - lo).toNat).map (fun k => lo.toNat + k)
  let cands : List (Int × Nat) :=
    idxs.map (fun i => (corrscore (pySlice seq i (i + w)) word '-' sm, i))
  match maxes cands with
  | none => .error (.typeError "cannot unpack non-iterable int object")
  | some siminds =>
    match siminds with
    | [] => .error (.typeError "min() arg is an empty sequence")
    | s₀ :: srest =>
      let trip := pyMinTrip ((s₀.2 : Int) - starti |>.natAbs, s₀.1, s₀.2)
        (srest.map (fun si => (((si.2 : Int) - starti).natAbs, si.1, si.2)))
      .ok (trip.2.1, trip.2.2)

/-! ## util.py data model: Fluke, Anchor -/

/-- Python string comparison (`<` by code points), executable on `List Char`. -/
def charListLt : List Char → List Char → Bool
  | [], [] => false
  | [], _ :: _ => true
  | _ :: _, [] => false
  | a :: as, b :: bs => a.toNat < b.toNat || (a == b && charListLt as bs)

/-- Python string `≤` (total order by code points). -/
def pyStrLe (s t : String) : Bool := !(charListLt t.data s.data)

/-- Insert `x` after every already-placed element `y` with `le y x`. -/
def insertRight {α : Type} (le : α → α → Bool) (x : α) : List α → List α
  | [] => [x]
  | y :: ys => if le y x then y :: insertRight le x ys else x :: y :: ys

/-- Python `sorted(l, key=...)`: a stable sort (structurally recursive
insertion sort; stable sorts against the same total preorder agree, so this
is exactly CPython's stable `sorted`). -/
def stableSort {α : Type} (le : α → α → Bool) (l : List α) : List α :=
  l.foldl (fun acc x => insertRight le x acc) []

/-- `util.Fluke` (an `Attr` attribute bag): a single sequence's match at one
anchor.  `offset` is optional (the attribute is set only conditionally in
`fts2anchors`); reading a missing offset is an `AttributeError`.  `score` is a
number in every fluke reachable by the operations below (inside `join_with` a
transient `None` placeholder is immediately overwritten by
`_calculate_scores`). -/
structure FlukeU where
  seqid : String
  score : ℚ
  start : Int
  stop : Int
  offset : Option Int
  word : List Char
  above_thres : Bool
  deriving Repr, DecidableEq

/-- `Fluke.len` property: `stop - start`. -/
def FlukeU.len (f : FlukeU) : Int := f.stop - f.start

/-- `util.Anchor`: a `UserList` of the flukes with `above_thres` set, plus the
below-threshold flukes in `missing`, the guide id `refid` and an optional
`strand` attribute (set by `find_my_anchors`; reading it when absent is an
`AttributeError`). -/
structure AnchorU where
  data : List FlukeU
  missing : List FlukeU
  refid : String
  strand : Option String := none
  deriving Repr, DecidableEq

/-- `Anchor.__init__(data, **kw)`: partitions the given flukes by
`above_thres` into the main list and `missing`. -/
def mkAnchor (flukes : List FlukeU) (refid : String)
    (strand : Option String := none) : AnchorU :=
  { data := flukes.filter (·.above_thres)
    missing := flukes.filter (fun f => !f.above_thres)
    refid := refid
    strand := strand }

/-- Python `dict` built by insertion with last-value-wins semantics
(models dict comprehensions such as `{f.seqid: f for f in self}`). -/
def dictInsert {α : Type} (d : List (String × α)) (k : String) (v : α) :
    List (String × α) :=
  if d.any (·.1 == k) then d.map (fun p => if p.1 == k then (k, v) else p)
  else d ++ [(k, v)]

/-- Build a Python dict from key-value pairs (last value wins). -/
def buildDict {α : Type} (l : List (String × α)) : List (String × α) :=
  l.foldl (fun d p => dictInsert d p.1 p.2) []

/-- Python `d[k]` lookup. -/
def dictLookup {α : Type} (d : List (String × α)) (k : String) : Option α :=
  (d.find? (·.1 == k)).map (·.2)

/-- `Anchor.todict()`: `{f.seqid: f for f in self}` over the main flukes. -/
def AnchorU.todict (a : AnchorU) : List (String × FlukeU) :=
  buildDict (a.data.map (fun f => (f.seqid, f)))

/-- `Anchor.ref`: `self.d[self.refid]`; `none` models the `KeyError` raised
when no main fluke has the guide id. -/
def AnchorU.ref (a : AnchorU) : Option FlukeU :=
  dictLookup a.todict a.refid

/-- `Anchor.minscore`: `min(f.score for f in self)`.  Python raises
`ValueError` on an anchor with no main flukes; theorems below assume
nonempty `data`, and the convention `0` is used for the empty case. -/
def AnchorU.minscore (a : AnchorU) : ℚ :=
  match a.data with
  | [] => 0
  | f :: rest => rest.foldl (fun m g => min m g.score) f.score

/-- `Anchor.__eq__` comes from `UserList`: two anchors are equal iff their
main fluke lists (`data`) are equal; `missing`, `refid` and `strand` are not
compared. -/
def pyEqAnchor (a b : AnchorU) : Bool := a.data == b.data

/-- `Anchor.__hash__` hashes `(self.ref.start, self.ref.len, self.ref.offset)`;
we model the hash by the key tuple itself (`none` models the `KeyError` when
the guide fluke is missing). -/
def anchorHashKey (a : AnchorU) : Option (Int × Int × Option Int) :=
  a.ref.map (fun f => (f.start, f.len, f.offset))

/-- The sort key closure used in `overlaps_with`/`contradicts`:
`'' if f.seqid == refid else f.seqid`. -/
def seqidKey (refid : String) (f : FlukeU) : String :=
  if f.seqid == refid then "" else f.seqid

/-- `sorted(flukes, key=seqidKey refid)` (stable, Python string order). -/
def sortBySeqidKey (refid : String) (l : List FlukeU) : List FlukeU :=
  stableSort (fun f g => pyStrLe (seqidKey refid f) (seqidKey refid g)) l

/-- Python `max` on two ints. -/
def maxI (a b : Int) : Int := if a ≤ b then b else a

/-- Python `min` on two ints. -/
def minI (a b : Int) : Int := if a ≤ b then a else b

/-- Python set equality of two string collections (`{...} == {...}`). -/
def strSetEq (l1 l2 : List String) : Bool :=
  l1.all (· ∈ l2) && l2.all (· ∈ l1)

/-- `Anchor.overlaps_with(a2)`: guide intervals intersect, the missing and
main seqid sets coincide, and all flukes are shifted rigidly by the guide
start difference. -/
def overlapsWith (a1 a2 : AnchorU) : Except PyError Bool :=
  match a1.ref, a2.ref with
  | none, _ => .error (.keyError a1.refid)
  | _, none => .error (.keyError a2.refid)
  | some r1, some r2 =>
    .ok (decide (maxI r1.start r2.start ≤ minI r1.stop r2.stop)
      && strSetEq (a1.missing.map (·.seqid)) (a2.missing.map (·.seqid))
      && strSetEq (a1.data.map (·.seqid)) (a2.data.map (·.seqid))
      && ((sortBySeqidKey a1.refid a1.data).zip (sortBySeqidKey a1.refid a2.data)).all
           (fun p => p.1.start - p.2.start == r1.start - r2.start))

/-- `Anchor.contradicts(a2)`: order the two anchors by guide start (the key
closure uses the rebound `a1`, i.e. the smaller-start anchor), pair their
sorted flukes, and report a contradiction when some fluke of the earlier
anchor starts after the paired fluke of the later anchor. -/
def contradicts (a1 a2 : AnchorU) : Except PyError Bool :=
  match a1.ref, a2.ref with
  | none, _ => .error (.keyError a1.refid)
  | _, none => .error (.keyError a2.refid)
  | some r1, some r2 =>
    let (b1, b2) := if r1.start > r2.start then (a2, a1) else (a1, a2)
    .ok (!(((sortBySeqidKey b1.refid b1.data).zip (sortBySeqidKey b1.refid b2.data)).all
      (fun p => p.1.start ≤ p.2.start)))

/-- `statistics.median`: middle of the sorted values, mean of the two middle
values for even length; `none` models `StatisticsError` on empty input. -/
def median (xs : List ℚ) : Option ℚ :=
  let s := stableSort (fun x y => decide (x ≤ y)) xs
  let n := s.length
  if n = 0 then none
  else if n % 2 = 1 then s.get? (n / 2)
  else match s.get? (n / 2 - 1), s.get? (n / 2) with
    | some x, some y => some ((x + y) / 2)
    | _, _ => none

/-- Effectful `map` over `Option` (sequential, first failure wins), used to
model comprehensions whose body may raise. -/
def mapMOpt {a b : Type} (g : a → Option b) : List a → Option (List b)
  | [] => some []
  | x :: xs =>
    match g x, mapMOpt g xs with
    | some y, some ys => some (y :: ys)
    | _, _ => none

/-- Effectful `map` over `Except` (sequential, the first exception wins),
used to model loops whose body may raise. -/
def mapMExcept {a b : Type} (g : a → Except PyError b) : List a → Except PyError (List b)
  | [] => .ok []
  | x :: xs =>
    match g x with
    | .error e => .error e
    | .ok y =>
      match mapMExcept g xs with
      | .error e => .error e
      | .ok ys => .ok (y :: ys)

/-- Effectful left fold over `Except` (sequential, the first exception
wins), used to model accumulating loops whose body may raise. -/
def foldMExcept {s a : Type} (g : s → a → Except PyError s) : s → List a → Except PyError s
  | acc, [] => .ok acc
  | acc, x :: xs =>
    match g acc x with
    | .error e => .error e
    | .ok acc' => foldMExcept g acc' xs

/-- `Anchor._calculate_scores()`: every fluke's score becomes the median of
its word's `corrscore` against the set of above-threshold words (the default
blosum62 matrix is external data, threaded as the parameter `sm`).  The error
models `StatisticsError` when the word set is empty.  `reScoreFluke` is the
per-fluke body: `fluke.score = median(corrscore(fluke.word, w) for w in
words)`. -/
def reScoreFluke (sm : Char → Char → Int) (words : List (List Char)) (f : FlukeU) :
    Option FlukeU :=
  (median (words.map (fun w => ((corrscore f.word w '-' sm : Int) : ℚ)))).map
    (fun s => { f with score := s })

/-- The loop of `_calculate_scores`, rescoring main and missing flukes
against the word set. -/
def calculateScores (sm : Char → Char → Int) (a : AnchorU) : Except PyError AnchorU :=
  let words := ((a.data.filter (·.above_thres)).map (·.word)).dedup
  match mapMOpt (reScoreFluke sm words) a.data, mapMOpt (reScoreFluke sm words) a.missing with
  | some ds, some ms => .ok { a with data := ds, missing := ms }
  | _, _ => .error (.statisticsError "no median for empty data")

/-- The sort key of `join_with`'s overlap branch:
`(not f.above_thres, '' if f.seqid == refid else f.seqid)`, ordered
lexicographically (Python `False < True`). -/
def joinKeyLe (refid : String) (f g : FlukeU) : Bool :=
  (!f.above_thres == !g.above_thres && pyStrLe (seqidKey refid f) (seqidKey refid g))
    || (f.above_thres && !g.above_thres)

/-- Python word slice `w[o:]` for a possibly negative `o`. -/
def pySliceFrom (w : List Char) (o : Int) : List Char :=
  if 0 ≤ o then w.drop o.toNat else w.drop ((w.length : Int) + o).toNat

/-- Loop body of `join_with`'s overlap branch: walk the paired sorted flukes,
check the `assert`s, build the joined fluke.  `correctl` is the running
common length established by the first above-threshold pair.  The score is a
placeholder (Python stores `None` here); `_calculate_scores` overwrites every
score right after the anchor is built. -/
def joinPairs (correctl : Option Int) (acc : List FlukeU) :
    List (FlukeU × FlukeU) → Except PyError (List FlukeU)
  | [] => .ok acc
  | (f1, f2) :: rest =>
    if f1.seqid ≠ f2.seqid then .error (.assertionError "f1.seqid == f2.seqid")
    else if f1.above_thres ≠ f2.above_thres then
      .error (.assertionError "f1.above_thres == f2.above_thres")
    else if f1.offset ≠ f2.offset then .error (.assertionError "f1.offset == f2.offset")
    else
      let start := min f1.start f2.start
      let stop := max f1.stop f2.stop
      let l := max f1.stop f2.stop - start
      let correctl' := if f1.above_thres && correctl == none then some l else correctl
      if f1.above_thres && !(correctl' == some l) then
        .error (.assertionError "correctl == l")
      else
        let overlaplen := f1.len + f2.len - l
        if correctl' ≠ some l then
          -- a gap between the flukes, only possible below the threshold
          if f1.above_thres || f2.above_thres then
            .error (.assertionError "not f1.above_thres and not f2.above_thres")
          else match correctl' with
            | none =>
              -- Python: `l = correctl` sets `l` to `None`; `start + l` raises
              .error (.typeError "unsupported operand type for +: int and NoneType")
            | some cl =>
              let stop := start + cl
              let overlaplen := f1.len + f2.len - cl
              let nword := if f1.start ≤ f2.start then f1.word ++ pySliceFrom f2.word overlaplen
                           else f2.word ++ pySliceFrom f1.word overlaplen
              if (nword.length : Int) ≠ cl then .error (.assertionError "len(nword) == l")
              else
                joinPairs correctl' (acc ++
                  [(⟨f1.seqid, 0, start, stop, f1.offset, nword,
                     f1.above_thres || f2.above_thres⟩ : FlukeU)]) rest
        else
          let nword := if f1.start ≤ f2.start then f1.word ++ pySliceFrom f2.word overlaplen
                       else f2.word ++ pySliceFrom f1.word overlaplen
          if (nword.length : Int) ≠ l then .error (.assertionError "len(nword) == l")
          else
            joinPairs correctl' (acc ++
              [(⟨f1.seqid, 0, start, stop, f1.offset, nword,
                 f1.above_thres || f2.above_thres⟩ : FlukeU)]) rest

/-- `Anchor.join_with(a2)`: raise unless the anchors nicely overlap; return
the containing anchor unchanged on containment; otherwise join the paired
flukes and recompute scores. -/
def joinWith (sm : Char → Char → Int) (a1 a2 : AnchorU) : Except PyError AnchorU :=
  match overlapsWith a1 a2 with
  | .error e => .error e
  | .ok false => .error (.valueError "Cannot join anchors which do not overlap")
  | .ok true =>
    match a1.ref, a2.ref with
    | none, _ => .error (.keyError a1.refid)
    | _, none => .error (.keyError a2.refid)
    | some r1, some r2 =>
      if r1.start ≤ r2.start && r2.stop ≤ r1.stop then
        -- a2 is contained in a1
        .ok a1
      else if r2.start ≤ r1.start && r1.stop ≤ r2.stop then
        -- a1 is contained in a2
        .ok a2
      else
        let s1 := stableSort (joinKeyLe a1.refid) (a1.data ++ a1.missing)
        let s2 := stableSort (joinKeyLe a1.refid) (a2.data ++ a2.missing)
        match joinPairs none [] (s1.zip s2) with
        | .error e => .error e
        | .ok flukes => calculateScores sm (mkAnchor flukes a1.refid)

/-! ## util.py: AnchorList.remove_contradicting_anchors -/

/-- `sorted(self, key=lambda a: a.minscore, reverse=True)` (stable). -/
def sortByMinscoreDesc (l : List AnchorU) : List AnchorU :=
  stableSort (fun a b => decide (b.minscore ≤ a.minscore)) l

/-- `sorted(self, key=lambda a: a.minscore)` (stable). -/
def sortByMinscoreAsc (l : List AnchorU) : List AnchorU :=
  stableSort (fun a b => decide (a.minscore ≤ b.minscore)) l

/-- The scan `for a1, a2 in itertools.product(a1s, a2s)`: skip pairs that are
equal (Python `==`) or where `a1.minscore < a2.minscore`; stop at the first
contradicting pair. -/
def findPairGo : List (AnchorU × AnchorU) → Except PyError (Option (AnchorU × AnchorU))
  | [] => .ok none
  | (a1, a2) :: rest =>
    if pyEqAnchor a1 a2 || decide (a1.minscore < a2.minscore) then findPairGo rest
    else match contradicts a1 a2 with
      | .error e => .error e
      | .ok true => .ok (some (a1, a2))
      | .ok false => findPairGo rest

/-- One full scan of `itertools.product(a1s, a2s)`. -/
def findPair (a1s a2s : List AnchorU) : Except PyError (Option (AnchorU × AnchorU)) :=
  findPairGo (a1s.product a2s)

/-- Python `list.remove(a)`: drop the first element `==`-equal to `a`
(in the loop below a match always exists, so the `ValueError` of `remove`
cannot occur). -/
def pyRemove (l : List AnchorU) (a : AnchorU) : List AnchorU :=
  l.eraseP (fun x => pyEqAnchor x a)

/-- The `while True` loop of `remove_contradicting_anchors`: find the first
eligible contradicting pair, remove `a2` from the list and both sort views,
record it, repeat.  `fuel` only bounds the recursion (each removal shrinks
the list, so `length + 1` steps suffice; the fuel error is unreachable from
`removeContradictingAnchors`). -/
def rcaLoop : Nat → List AnchorU → List AnchorU → List AnchorU → List AnchorU →
    Except PyError (List AnchorU × List AnchorU)
  | 0, _, _, _, _ => .error (.assertionError "loop fuel exhausted")
  | n + 1, data, a1s, a2s, removed =>
    match findPair a1s a2s with
    | .error e => .error e
    | .ok none => .ok (data, removed)
    | .ok (some (_, a2)) =>
      rcaLoop n (pyRemove data a2) (pyRemove a1s a2) (pyRemove a2s a2) (removed ++ [a2])

/-- `AnchorList.remove_contradicting_anchors()`: returns the surviving list
together with the removed anchors. -/
def removeContradictingAnchors (l : List AnchorU) :
    Except PyError (List AnchorU × List AnchorU) :=
  rcaLoop (l.length + 1) l (sortByMinscoreDesc l) (sortByMinscoreAsc l) []

/-! ## core.py: anchor_at_pos (Anchor Assembly) -/

/-- An amino-acid sequence as seen by `anchor_at_pos`: id, residues and the
optional `meta.offset`. -/
structure SeqA where
  id : String
  data : List Char
  offset : Option Int
  deriving Repr, DecidableEq

/-- A fluke as built at the end of `anchor_at_pos` (`core.py` constructs it
with a `poor` flag and `score=None`; scores are recomputed afterwards). -/
structure FlukeGo where
  seqid : String
  score : Option ℚ
  medianScore : Option ℚ
  start : Nat
  offset : Option Int
  stop : Nat
  word : List Char
  poor : Bool
  deriving Repr, DecidableEq

/-- A heap entry `(-score, abs(j - i), score, j, seqid)` as pushed by
`anchor_at_pos`. -/
abbrev HeapEntry : Type := Int × Int × Int × Nat × String

/-- Python `<` on heap entries (lexicographic tuple order, strings by code
points). -/
def entryLt (a b : HeapEntry) : Bool :=
  match a, b with
  | (n1, d1, s1, j1, i1), (n2, d2, s2, j2, i2) =>
    n1 < n2 || (n1 == n2 && (d1 < d2 || (d1 == d2 && (s1 < s2 || (s1 == s2 &&
      (j1 < j2 || (j1 == j2 && charListLt i1.data i2.data)))))))

/-- The minimum entry of a nonempty heap (what `heappop` returns; fully equal
tuples are indistinguishable, so extracting any minimum is faithful). -/
def heapMin (e₀ : HeapEntry) (es : List HeapEntry) : HeapEntry :=
  es.foldl (fun m e => if entryLt e m then e else m) e₀

/-- The parameters of one `anchor_at_pos` call that stay fixed during the
loops (`aas` after `todict()`, its length, the guide sequence, position,
word length, search range, the three thresholds, and the substitution
matrix). -/
structure GoParams where
  aasD : List (String × SeqA)
  n : Nat
  gaa : SeqA
  i : Nat
  w : Nat
  searchRange : Nat
  scoreAddWord : ℚ
  thrQuota : ℚ
  thrScore : ℚ
  sm : Char → Char → Int

/-- The mutable state of the `while len(todo) > 0` loop. -/
structure GoState where
  toadd : List HeapEntry
  todo : List String
  words : List (List Char)
  res : List (Int × Nat × String)
  nfails : Nat
  gword : List Char
  deriving DecidableEq

/-- Step 3a: for each id in `todo`, find the best word match (shift bounds
widened by the length difference with the guide) and push it onto the heap.
The Python `if j is None: raise ValueError` guard is unreachable: an empty
search range already raises `TypeError` inside `shift_and_find_best_word`. -/
def pushPhase (p : GoParams) (gword : List Char) (todo : List String)
    (toadd : List HeapEntry) : Except PyError (List HeapEntry) :=
  foldMExcept (fun acc id_ =>
    match dictLookup p.aasD id_ with
    | none => .error (.keyError id_)
    | some aa =>
      let maxshiftl := p.searchRange + (aa.data.length - p.gaa.data.length)
      let maxshiftr := p.searchRange + (p.gaa.data.length - aa.data.length)
      match shiftAndFindBestWord aa.data gword p.i p.w p.sm
          (some maxshiftl) (some maxshiftr) with
      | .error e => .error e
      | .ok (score, j) =>
        .ok (acc ++ [(-score, (((j : Int) - p.i).natAbs : Int), score, j, id_)]))
    toadd todo

/-- Outcome of the inner `while len(toadd) > 0` loop. -/
inductive InnerRes where
  | abort (nfails : Nat)
  | broke (st : GoState)
  | finished (st : GoState)

/-- Step 3b: pop the best candidate; skip it if its sequence was already
serviced; count a failure (and abort the anchor if the quota has become
unreachable) when its score is below `thr_score_add_anchor`; accept the
fluke; break out to re-run the search when the matched word is new and
scores at least `score_add_word`.  `abort` carries the failure counter at
the moment of the early `return` (the Python function returns `None`).
The fuel only bounds the recursion (each pop shrinks the heap, so
`toadd.length + 1` steps suffice; the fuel error is unreachable from
`outerLoop`). -/
def innerLoop (p : GoParams) :
    Nat → List HeapEntry → List String → List (List Char) →
    List (Int × Nat × String) → Nat → List Char → Except PyError InnerRes
  | 0, _, _, _, _, _, _ => .error (.assertionError "loop fuel exhausted")
  | _ + 1, [], todo, words, res, nfails, gword =>
    .ok (.finished ⟨[], todo, words, res, nfails, gword⟩)
  | fuel + 1, e₀ :: rest, todo, words, res, nfails, gword =>
    let m := heapMin e₀ rest
    let toadd' := (e₀ :: rest).erase m
    let score := m.2.2.1
    let j := m.2.2.2.1
    let id_ := m.2.2.2.2
    if id_ ∉ todo then innerLoop p fuel toadd' todo words res nfails gword
    else
      let nfails' := if (score : ℚ) < p.thrScore then nfails + 1 else nfails
      if (score : ℚ) < p.thrScore ∧ ((nfails' : ℚ) / (p.n : ℚ) > 1 - p.thrQuota) then
        .ok (.abort nfails')
      else match dictLookup p.aasD id_ with
        | none => .error (.keyError id_)
        | some aa =>
          let gword' := pySlice aa.data j (j + p.w)
          let res' := res ++ [(score, j, id_)]
          let todo' := todo.erase id_
          if gword' ∉ words ∧ (p.scoreAddWord ≤ (score : ℚ)) then
            .ok (.broke ⟨toadd', todo', words ++ [gword'], res', nfails', gword'⟩)
          else innerLoop p fuel toadd' todo' words res' nfails' gword'

/-- The outer `while len(todo) > 0` loop: push candidates for every pending
sequence, then pop until the heap is empty or a new consensus word causes a
break.  `none` models the early `return` (no anchor).  The `while/else`
clause asserts that the heap only runs empty once every sequence has been
serviced.  The fuel only bounds the recursion (each `broke` round shrinks
`todo`, so `todo.length + 1` rounds suffice). -/
def outerLoop (p : GoParams) :
    Nat → List HeapEntry → List String → List (List Char) →
    List (Int × Nat × String) → Nat → List Char → Except PyError (Option GoState)
  | 0, _, _, _, _, _, _ => .error (.assertionError "loop fuel exhausted")
  | fuel + 1, toadd, todo, words, res, nfails, gword =>
    if todo = [] then .ok (some ⟨toadd, todo, words, res, nfails, gword⟩)
    else match pushPhase p gword todo toadd with
      | .error e => .error e
      | .ok toadd' =>
        match innerLoop p (toadd'.length + 1) toadd' todo words res nfails gword with
        | .error e => .error e
        | .ok (.abort _) => .ok none
        | .ok (.broke st) =>
          outerLoop p fuel st.toadd st.todo st.words st.res st.nfails st.gword
        | .ok (.finished st) =>
          if st.todo = [] then .ok (some st)
          else .error (.assertionError "len(todo) == 0")

/-- Python `set(...)` of strings, modelled as a duplicate-free list in
first-occurrence order. -/
def dedupKeepFirst (l : List String) : List String :=
  l.foldl (fun acc x => if x ∈ acc then acc else acc ++ [x]) []

/-- Modelled from the spec: `Anchor._calculate_fluke_scores(scoring)` is
called at the end of `anchor_at_pos` but is not present in the provided
`util.py`.  Spec §4.3 step 4: "Recompute every Fluke's `score`/`median_score`
as (max, median) of `corrscore(fluke.word, w)` for each `w` in the final
consensus set." -/
def calculateFlukeScores (sm : Char → Char → Int) (words : List (List Char))
    (flukes : List FlukeGo) : List FlukeGo :=
  flukes.map (fun f =>
    let scores := words.map (fun w => ((corrscore f.word w '-' sm : Int) : ℚ))
    { f with score := scores.max?, medianScore := median scores })

/-- `core.anchor_at_pos(i, aas, w, gseqid, search_range, score_add_word,
thr_quota_add_anchor, thr_score_add_anchor, scoring)`: find an anchor at
guide position `i`; `none` models the `return` without an anchor.  The final
`Anchor(flukes, gseqid=gseqid)` wrapper and `_calculate_fluke_scores` belong
to a newer `Anchor` API than the provided `util.py`; the produced anchor is
modelled as its fluke list with scores recomputed by the spec-modelled
`calculateFlukeScores`. -/
def anchorAtPos (i : Nat) (aas : List SeqA) (w : Nat) (gseqid : String)
    (searchRange : Nat) (scoreAddWord thrQuota thrScore : ℚ)
    (sm : Char → Char → Int) : Except PyError (Option (List FlukeGo)) :=
  match aas.find? (fun aa => aa.id == gseqid) with
  | none => .error (.indexError "list index out of range")
  | some gaa =>
    match aas.head? with
    | none => .error (.indexError "list index out of range")
    | some a0 =>
      if gaa ≠ a0 then .error (.assertionError "gaa == aas[0]")
      else
        let gword := pySlice gaa.data i (i + w)
        let gscore := corrscore gword gword '-' sm
        if (gscore : ℚ) < thrScore then .ok none
        else
          let todo := dedupKeepFirst ((aas.drop 1).map (·.id))
          let aasD := buildDict (aas.map (fun aa => (aa.id, aa)))
          let p : GoParams :=
            ⟨aasD, aasD.length, gaa, i, w, searchRange, scoreAddWord, thrQuota, thrScore, sm⟩
          match outerLoop p (todo.length + 1) [] todo [gword] [(gscore, i, gseqid)] 0 gword with
          | .error e => .error e
          | .ok none => .ok none
          | .ok (some st) =>
            match mapMOpt (fun (r : Int × Nat × String) =>
                (dictLookup aasD r.2.2).map (fun aa =>
                  (⟨aa.id, none, none, r.2.1, aa.offset, r.2.1 + w,
                    pySlice aa.data r.2.1 (r.2.1 + w),
                    decide ((r.1 : ℚ) < scoreAddWord)⟩ : FlukeGo))) st.res with
            | none => .error (.keyError "sequence id")
            | some flukes =>
              match flukes.head? with
              | none => .error (.indexError "list index out of range")
              | some f0 =>
                if f0.seqid ≠ gseqid then .error (.assertionError "flukes[0].seqid == gseqid")
                else .ok (some (calculateFlukeScores sm st.words flukes))

/-! ## core.py: cutout -/

/-- A sequence as seen by `cutout`: id, residues, `meta.offset` and the
optional CDS feature `(loc.start, loc.stop, loc.strand)` (provided by the
external sugar library). -/
structure SeqC where
  id : String
  data : List Char
  offset : Option Int
  cds : Option (Int × Int × String)
  deriving Repr, DecidableEq

/-- Python `c in s` membership on a string. -/
def pyContains (l : List Char) (c : Char) : Bool := l.any (· == c)

/-- Python `s.split(sep)` for a one-character separator. -/
def splitOnChar (sep : Char) : List Char → List (List Char)
  | [] => [[]]
  | c :: rest =>
    let r := splitOnChar sep rest
    if c == sep then [] :: r
    else match r with
      | [] => [[c]]
      | h :: t => (c :: h) :: t

/-- Python `int(s)` on an unsigned decimal literal (`none` models the
`ValueError` on anything else). -/
def charsToNat? (l : List Char) : Option Nat :=
  if l.isEmpty then none
  else if l.all (fun c => 48 ≤ c.toNat && c.toNat ≤ 57) then
    some (l.foldl (fun n c => 10 * n + (c.toNat - 48)) 0)
  else none

/-- Common whitespace for `str.strip`. -/
def isSpaceChar (c : Char) : Bool := c == ' ' || c == '\t' || c == '\n' || c == '\r'

/-- Python `s.strip()`. -/
def pyStrip (l : List Char) : List Char :=
  ((l.dropWhile isSpaceChar).reverse.dropWhile isSpaceChar).reverse

/-- Python `s.lower()` (ASCII range). -/
def lowerChar (c : Char) : Char :=
  if 65 ≤ c.toNat ∧ c.toNat ≤ 90 then Char.ofNat (c.toNat + 32) else c

/-- Python `s.lower()`. -/
def pyLower (l : List Char) : List Char := l.map lowerChar

/-- Modelled from the spec: `Anchor.todict_seqid()` is called by
`_split_cutout_pos` but is not present in the provided `util.py` (which only
has `Anchor.todict`).  Spec §4.7: an anchor reference "resolves per-sequence
via that anchor's Fluke for the given sequence"; modelled, like `todict`, as
the dict mapping each main fluke's seqid to the fluke. -/
def todictSeqid (a : AnchorU) : List (String × FlukeU) :=
  buildDict (a.data.map (fun f => (f.seqid, f)))

/-- The resolved `A` part of a position specifier: a sentinel string or a
real anchor's per-sequence fluke dict. -/
inductive PosA where
  | sentinel (s : List Char)
  | anchorDict (d : List (String × FlukeU))
  deriving Repr, DecidableEq

/-- The fluke dict carried by a resolved specifier (empty for sentinels;
sentinel specifiers are never indexed, `is_real_anchor` guards every use). -/
def PosA.dict : PosA → List (String × FlukeU)
  | .anchorDict d => d
  | .sentinel _ => []

/-- `core._split_cutout_pos(pos, mode, seqs, anchors, defaultB)`: split a
specifier such as `"a10>+5"` into its anchor part `A`, alignment char `B`
and integer offset `C` (plus the is-real-anchor flag).  The warning about
anchor ids absent from the sequences is an observational side channel and is
not modelled. -/
def splitCutoutPos (pos : List Char) (mode : String) (anchors : List AnchorU)
    (defaultB : Char) : Except PyError (PosA × Char × Int × Bool) :=
  let stepC : Except PyError (List Char × Int) :=
    if pyContains pos '+' then
      match splitOnChar '+' pos with
      | [p, cs] =>
        match charsToNat? cs with
        | some n => .ok (p, (n : Int))
        | none => .error (.valueError "invalid literal for int()")
      | _ => .error (.valueError "too many values to unpack")
    else if pyContains pos '-' then
      match splitOnChar '-' pos with
      | [p, cs] =>
        match charsToNat? cs with
        | some n => .ok (p, -(n : Int))
        | none => .error (.valueError "invalid literal for int()")
      | _ => .error (.valueError "too many values to unpack")
    else .ok (pos, 0)
  match stepC with
  | .error e => .error e
  | .ok (posC, c) =>
    let stepB : Except PyError (List Char × Char) :=
      match posC.getLast? with
      | none => .error (.indexError "string index out of range")
      | some lastc =>
        if lastc ∈ ['<', '>', '^'] then
          let pos' := posC.dropLast
          if pos' = "start".data ∨ pos' = "end".data then
            .error (.valueError "<>^ alignment characters not allowed for start, end")
          else .ok (pos', lastc)
        else .ok (posC, defaultB)
    match stepB with
    | .error e => .error e
    | .ok (posB, b) =>
      if posB = "start".data ∧ c < 0 then .error (.valueError "C<0 not allowed for start")
      else if posB = "end".data ∧ 0 < c then .error (.valueError "C>0 not allowed for end")
      else if (posB = "atg".data ∨ posB = "*".data) ∧ mode ≠ "nt" then
        .error (.valueError "only allowed in mode seq")
      else if posB = "start".data ∨ posB = "end".data ∨ posB = "atg".data ∨ posB = "*".data then
        .ok (.sentinel posB, b, c, false)
      else
        let digits := match posB with | 'a' :: t => t | _ => posB
        match charsToNat? digits with
        | none => .error (.valueError "invalid literal for int()")
        | some idx =>
          match anchors.get? idx with
          | none => .error (.indexError "list index out of range")
          | some anchor => .ok (.anchorDict (todictSeqid anchor), b, c, true)

/-- Modelled from the spec: `Fluke._apply_mode(mode)` is called by
`_transform_cutout_index` but only the module-level `_apply_mode` appears in
the provided `util.py`.  Spec §4.7: the fluke interval is "converted to the
requested coordinate mode (amino-acid / CDS-relative / absolute-nucleotide)";
mirroring `util._apply_mode`: `aa` keeps the indices, `cds` multiplies by 3,
`nt` multiplies by 3 and adds the fluke's nucleotide offset (a missing offset
is an `AttributeError`, an unknown mode a `ValueError`). -/
def flukeApplyMode (f : FlukeU) (mode : String) : Except PyError (Int × Int) :=
  if mode = "aa" then .ok (f.start, f.stop)
  else if mode = "cds" then .ok (3 * f.start, 3 * f.stop)
  else if mode = "nt" then
    match f.offset with
    | none => .error (.attributeError "offset")
    | some o => .ok (3 * f.start + o, 3 * f.stop + o)
  else .error (.valueError "mode not allowed")

/-- `core._transform_cutout_index(A, B, C, id_, seq, mode)`: resolve the
specifier parts against one sequence to an integer index. -/
def transformCutoutIndex (A : PosA) (B : Char) (C : Int) (id_ : String)
    (seq : SeqC) (mode : String) : Except PyError Int :=
  let interval : Except PyError (Int × Int) :=
    match A with
    | .sentinel s =>
      if s = "start".data then .ok ((0 : Int), (0 : Int))
      else if s = "end".data then .ok ((seq.data.length : Int), (seq.data.length : Int))
      else if s = "atg".data then
        if mode ≠ "nt" then .error (.assertionError "mode == nt")
        else match seq.cds with
          | none => .error (.attributeError "loc")
          | some (cs, _, _) => .ok (cs, cs + 3)
      else if s = "*".data then
        if mode ≠ "nt" then .error (.assertionError "mode == nt")
        else match seq.cds with
          | none => .error (.attributeError "loc")
          | some (_, t, _) => .ok (t - 3, t)
      else .error (.assertionError "unreachable sentinel")
    | .anchorDict d =>
      match dictLookup d id_ with
      | none => .error (.keyError id_)
      | some f => flukeApplyMode f mode
  match interval with
  | .error e => .error e
  | .ok (i1, i2) =>
    let i := if B = '<' then i1 else if B = '>' then i2 else (i1 + i2) / 2
    .ok (i + C)

/-- Python slice `s[i:j]` with possibly negative integer bounds. -/
def pySliceInt (s : List Char) (i j : Int) : List Char :=
  let n := (s.length : Int)
  let conv := fun (k : Int) => if k < 0 then (max 0 (n + k)).toNat else (min k n).toNat
  (s.take (conv j)).drop (conv i)

/-- The per-sequence body of `cutout`'s loop: either a `ValueError` (missing
fluke), a skip (`none`, the `score_use_fluke` gate), or the cut sequence.
The external `seq.sl(gap=gap, update_fts=update_fts)[i:j]` slicing is
modelled as a plain slice (the `gap`/`update_fts` behavior lives in the
external sugar library); metadata handling follows the default
`update_fts=False`. -/
def cutoutStep (la : PosA) (lb : Char) (lc : Int) (ra : PosA) (rb : Char) (rc : Int)
    (lReal rReal : Bool) (mode : String) (scoreUseFluke : Option ℚ)
    (id_ : String) (seq : SeqC) : Except PyError (Option SeqC) :=
  let laD := la.dict
  let raD := ra.dict
  if (lReal && (dictLookup laD id_).isNone) || (rReal && (dictLookup raD id_).isNone) then
    .error (.valueError "No fluke found for sequence, this should not happen, contact developers")
  else
    let below := fun (real : Bool) (d : List (String × FlukeU)) =>
      match scoreUseFluke with
      | none => false
      | some s => real && (match dictLookup d id_ with
        | some f => decide (f.score < s)
        | none => false)
    if below lReal laD || below rReal raD then
      -- `warn(...)` then `continue`: the sequence is skipped
      .ok none
    else
      match transformCutoutIndex la lb lc id_ seq mode with
      | .error e => .error e
      | .ok i =>
        match transformCutoutIndex ra rb rc id_ seq mode with
        | .error e => .error e
        | .ok j =>
          let sliced := pySliceInt seq.data i j
          if mode = "nt" then
            .ok (some { seq with data := sliced, offset := some i, cds := none })
          else .ok (some { seq with data := sliced })

/-- `core.cutout(seqs, anchors, pos1, pos2, mode, score_use_fluke)`: resolve
both position specifiers and cut every sequence between them. -/
def cutout (seqs : List SeqC) (anchors : List AnchorU) (pos1 pos2 : String)
    (mode : String) (scoreUseFluke : Option ℚ) : Except PyError (List SeqC) :=
  let seqsD := buildDict (seqs.map (fun s => (s.id, s)))
  match splitCutoutPos (pyLower (pyStrip pos1.data)) mode anchors '<' with
  | .error e => .error e
  | .ok (la, lb, lc, lReal) =>
    match splitCutoutPos (pyLower (pyStrip pos2.data)) mode anchors '>' with
    | .error e => .error e
    | .ok (ra, rb, rc, rReal) =>
      foldMExcept (fun acc p =>
        match cutoutStep la lb lc ra rb rc lReal rReal mode scoreUseFluke p.1 p.2 with
        | .error e => .error e
        | .ok none => .ok acc
        | .ok (some seq2) => .ok (acc ++ [seq2])) [] seqsD

/-! ## core.py: combine -/

/-- An `AnchorList` with its `no_cds` flag, as read from one anchor file. -/
structure AnchorListC where
  data : List AnchorU
  no_cds : Bool
  deriving Repr, DecidableEq

/-- The offsets dict `{f.seqid: f.offset for anchor in lot_of_anchors[0]
for f in anchor}` (reading a missing `offset` attribute is an
`AttributeError`). -/
def combineOffsets (first : AnchorListC) : Except PyError (List (String × Int)) :=
  foldMExcept (fun d f =>
    match f.offset with
    | none => .error (.attributeError "offset")
    | some o => .ok (dictInsert d f.seqid o)) [] (first.data.flatMap (·.data))

/-- The per-fluke body of `combine`'s inner loop: rewrite the fluke onto the
first list's offset for its sequence, shifting `start`/`stop` by the offset
difference divided by `div` (which must divide it evenly). -/
def combineFluke (offsets : List (String × Int)) (div : Int) (f : FlukeU) :
    Except PyError FlukeU :=
  match f.offset with
  | none => .error (.attributeError "offset")
  | some fo =>
    match dictLookup offsets f.seqid with
    | none => .error (.keyError f.seqid)
    | some o0 =>
      let doff := fo - o0
      if doff % div ≠ 0 then
        .error (.valueError "Cannot combine anchors with offset difference module not equal 3, use --convert-nt option")
      else
        .ok { f with offset := some o0, start := f.start + doff / div,
                     stop := f.stop + doff / div }

/-- The per-anchor body of `combine`'s loop: reject `-` strand anchors
(reading a missing `strand` attribute is an `AttributeError`), then rewrite
every main fluke with `combineFluke` (the `missing` flukes are not touched:
`for f in anchor` iterates the main list only). -/
def combineAnchor (offsets : List (String × Int)) (div : Int) (a : AnchorU) :
    Except PyError AnchorU :=
  match a.strand with
  | none => .error (.attributeError "strand")
  | some s =>
    if s = "-" then
      .error (.valueError "Cannot combine anchors on - strand, use --convert-nt option")
    else
      match mapMExcept (combineFluke offsets div) a.data with
      | .error e => .error e
      | .ok d => .ok { a with data := d }

/-- Python set union `anchors |= set(nans)` with `Anchor`'s `==`/hash
semantics, modelled as a duplicate-free (under `pyEqAnchor`) list in
insertion order (theorems about `combine` are stated membership-wise, so the
arbitrary iteration order of a Python set is immaterial). -/
def pyAnchorUnion (acc : List AnchorU) (nans : List AnchorU) : List AnchorU :=
  nans.foldl (fun acc a => if acc.any (pyEqAnchor a) then acc else acc ++ [a]) acc

/-- Modelled from the spec: `AnchorList.sort()` is called at the end of
`combine` but is not present in the provided `util.py` (a plain `UserList`
has no self-returning `sort`).  Spec §3: the list invariant is "sorted by
guide-fluke start when `.sort()` has been called"; modelled as a stable sort
by the guide fluke's start (anchors whose guide fluke is missing sort with
key 0). -/
def sortAnchorList (l : List AnchorU) : List AnchorU :=
  stableSort (fun a b =>
    decide (((a.ref.map (·.start)).getD 0) ≤ ((b.ref.map (·.start)).getD 0))) l

/-- The per-file body of `combine`'s loop: reject anchors already present
(Python `set(nans) & anchors`), rewrite each anchor with `combineAnchor`,
and union the result into the accumulated set. -/
def combineStep (offsets : List (String × Int)) (div : Int)
    (acc : List AnchorU) (nans : AnchorListC) : Except PyError (List AnchorU) :=
  if nans.data.any (fun a => acc.any (pyEqAnchor a)) then
    .error (.valueError "Anchors exist in multiple files")
  else
    match mapMExcept (combineAnchor offsets div) nans.data with
    | .error e => .error e
    | .ok nans' => .ok (pyAnchorUnion acc nans')

/-- `core.combine(lot_of_anchors)`: merge anchor lists from independent runs
onto the first list's offsets.  The `convert_nt=False` default is modelled
(`AnchorList._convert_nt` is not in the provided sources).  The `no_cds`
flags must agree (`set.pop` on an empty set, i.e. an empty argument list, is
a `KeyError`); duplicates across files are a `ValueError`. -/
def combine (lot : List AnchorListC) : Except PyError AnchorListC :=
  let noCdsSet := (lot.map (·.no_cds)).dedup
  if noCdsSet.length > 1 then
    .error (.valueError "Some anchors calculated with no_cds option, some without")
  else
    match noCdsSet, lot with
    | [], _ | _, [] => .error (.keyError "pop from an empty set")
    | noCds :: _, first :: _ =>
      match combineOffsets first with
      | .error e => .error e
      | .ok offsets =>
        let div : Int := if noCds then 1 else 3
        match foldMExcept (combineStep offsets div) [] lot with
        | .error e => .error e
        | .ok anchors => .ok ⟨sortAnchorList anchors, noCds⟩

/-! ## Concrete instances used by witnesses and counterexamples -/

/-- A toy substitution matrix (1 on the diagonal) standing in for the
external `submat` data in concrete evaluations. -/
def smEq : Char → Char → Int := fun c d => if c = d then 1 else 0

/-- A two-fluke test anchor over sequences `g` (guide, start `r`) and `x`
(start `xv`), both flukes scored `s`. -/
def exAnchor2 (r xv : Int) (s : ℚ) : AnchorU :=
  ⟨[⟨"g", s, r, r + 2, some 0, ['M', 'M'], true⟩,
    ⟨"x", s, xv, xv + 2, some 0, ['M', 'M'], true⟩], [], "g", none⟩

/-- `Y` in the `remove_contradicting_anchors` counterexample. -/
def exY : AnchorU := exAnchor2 5 3 10
/-- `W` in the `remove_contradicting_anchors` counterexample. -/
def exW : AnchorU := exAnchor2 5 9 10
/-- `A` in the `remove_contradicting_anchors` counterexample. -/
def exA : AnchorU := exAnchor2 20 30 10
/-- `Z` in the `remove_contradicting_anchors` counterexample. -/
def exZ : AnchorU := exAnchor2 0 9 5
/-- `B` in the `remove_contradicting_anchors` counterexample. -/
def exB : AnchorU := exAnchor2 20 31 4

/-- A one-fluke guide-only anchor with interval `[r, r+l)` and word `w`. -/
def exAnchor1 (r l : Int) (w : List Char) : AnchorU :=
  ⟨[⟨"g", 1, r, r + l, some 0, w, true⟩], [], "g", none⟩

/-- A fluke for the cutout and hashing examples. -/
def exFluke (sid : String) (st : Int) (sc : ℚ) : FlukeU :=
  ⟨sid, sc, st, st + 2, some 0, ['M', 'M'], true⟩

/-- A sequence `p` for the cutout example. -/
def exSeqP : SeqC := ⟨"p", "ABCDEFGHIJ".data, some 0, none⟩
/-- A sequence `q` for the cutout example. -/
def exSeqQ : SeqC := ⟨"q", "KLMNOPQRST".data, some 0, none⟩
/-- An anchor holding a fluke for sequence `p` only. -/
def exAnchorOnlyP : AnchorU := ⟨[exFluke "p" 3 10], [], "p", none⟩

/-- Anchor with guide fluke `g` plus an `x` fluke starting at 7. -/
def exHashP : AnchorU := ⟨[exFluke "g" 0 5, exFluke "x" 7 5], [], "g", none⟩
/-- Same guide fluke as `exHashP` but a different `x` fluke. -/
def exHashQ : AnchorU := ⟨[exFluke "g" 0 5, exFluke "x" 9 5], [], "g", none⟩
/-- Same fluke data as `exHashP` but an extra `missing` fluke. -/
def exHashR : AnchorU := ⟨[exFluke "g" 0 5, exFluke "x" 7 5],
  [⟨"y", 1, 0, 2, some 0, ['M', 'M'], false⟩], "g", none⟩

/-- First anchor list for the `combine` example. -/
def exComb1 : AnchorListC :=
  ⟨[⟨[⟨"p", 10, 5, 7, some 0, ['M', 'M'], true⟩,
      ⟨"q", 9, 6, 8, some 3, ['M', 'M'], true⟩], [], "p", some "+"⟩], false⟩
/-- Second anchor list for the `combine` example (other offsets). -/
def exComb2 : AnchorListC :=
  ⟨[⟨[⟨"p", 10, 2, 4, some 9, ['K', 'K'], true⟩,
      ⟨"q", 9, 1, 3, some 18, ['K', 'K'], true⟩], [], "p", some "+"⟩], false⟩

/-- The result of `combine [exComb1, exComb2]` (second list rewritten onto
the first list's offsets). -/
def exCombOut : AnchorListC :=
  ⟨[⟨[⟨"p", 10, 5, 7, some 0, ['M', 'M'], true⟩,
      ⟨"q", 9, 6, 8, some 3, ['M', 'M'], true⟩], [], "p", some "+"⟩,
    ⟨[⟨"p", 10, 5, 7, some 0, ['K', 'K'], true⟩,
      ⟨"q", 9, 6, 8, some 3, ['K', 'K'], true⟩], [], "p", some "+"⟩], false⟩

/-- Parameters of a small two-sequence `anchor_at_pos` run (guide `g`,
other sequence `x`, word length 2 at position 1). -/
def exGoParams : GoParams :=
  ⟨buildDict [("g", ⟨"g", ['M', 'K', 'L', 'V'], some 0⟩),
              ("x", ⟨"x", ['M', 'K', 'L', 'V'], some 0⟩)],
   2, ⟨"g", ['M', 'K', 'L', 'V'], some 0⟩, 1, 2, 3, 2, 1/2, 2, smEq⟩

/-- A variant of `exGoParams` with `thr_score_add_anchor = 5` (so the perfect
match of score 2 still counts as a failure) and `thr_quota_add_anchor = 1`
(so the very first failure crosses the quota and aborts the anchor). -/
def exGoParamsAbort : GoParams :=
  ⟨buildDict [("g", ⟨"g", ['M', 'K', 'L', 'V'], some 0⟩),
              ("x", ⟨"x", ['M', 'K', 'L', 'V'], some 0⟩)],
   2, ⟨"g", ['M', 'K', 'L', 'V'], some 0⟩, 1, 2, 3, 2, 1, 5, smEq⟩

/-! ## Helper lemmas -/

theorem zip_take_eq {α β : Type} : ∀ (s1 : List α) (s2 : List β),
    s1.zip s2 = (s1.take s2.length).zip (s2.take s1.length)
  | [], _ => by simp
  | _ :: _, [] => by simp
  | a :: s1, b :: s2 => by
    simp only [List.length_cons, List.take_succ_cons, List.zip_cons_cons]
    exact congrArg _ (zip_take_eq s1 s2)

theorem mapMOpt_above (g : FlukeU → Option FlukeU)
    (hg : ∀ f f', g f = some f' → f'.above_thres = f.above_thres) :
    ∀ (l l' : List FlukeU), mapMOpt g l = some l' →
      ∀ f' ∈ l', ∃ f ∈ l, f'.above_thres = f.above_thres := by
  intro l
  induction l with
  | nil =>
    intro l' h
    simp only [mapMOpt, Option.some.injEq] at h
    subst h; simp
  | cons a as ih =>
    intro l' h
    simp only [mapMOpt] at h
    cases hga : g a with
    | none => rw [hga] at h; exact absurd h (by simp)
    | some b =>
      cases hmas : mapMOpt g as with
      | none => rw [hga, hmas] at h; exact absurd h (by simp)
      | some bs =>
        rw [hga, hmas] at h
        simp only [Option.some.injEq] at h
        subst h
        intro f' hf'
        rcases List.mem_cons.mp hf' with rfl | hf'
        · exact ⟨a, List.mem_cons_self _ _, hg a _ hga⟩
        · obtain ⟨f, hf, hfe⟩ := ih bs hmas f' hf'
          exact ⟨f, List.mem_cons_of_mem _ hf, hfe⟩

theorem reScoreFluke_above (sm : Char → Char → Int) (words : List (List Char))
    (f f' : FlukeU) (h : reScoreFluke sm words f = some f') :
    f'.above_thres = f.above_thres := by
  unfold reScoreFluke at h
  cases hm : median (words.map (fun w => ((corrscore f.word w '-' sm : Int) : ℚ))) with
  | none => rw [hm] at h; exact absurd h (by simp)
  | some sc =>
    rw [hm] at h
    simp only [Option.map_some', Option.some.injEq] at h
    subst h; rfl

theorem calculateScores_above (sm : Char → Char → Int) (a b : AnchorU)
    (hok : calculateScores sm a = .ok b) :
    (∀ f' ∈ b.data, ∃ f ∈ a.data, f'.above_thres = f.above_thres)
    ∧ (∀ f' ∈ b.missing, ∃ f ∈ a.missing, f'.above_thres = f.above_thres) := by
  simp only [calculateScores] at hok
  generalize hW : ((a.data.filter (·.above_thres)).map (·.word)).dedup = W at hok
  cases hd : mapMOpt (reScoreFluke sm W) a.data with
  | none => rw [hd] at hok; exact absurd hok (by cases mapMOpt (reScoreFluke sm W) a.missing <;> simp)
  | some ds =>
    cases hm : mapMOpt (reScoreFluke sm W) a.missing with
    | none => rw [hd, hm] at hok; exact absurd hok (by simp)
    | some ms =>
      rw [hd, hm] at hok
      simp only [Except.ok.injEq] at hok
      subst hok
      exact ⟨mapMOpt_above _ (fun f f' => reScoreFluke_above sm W f f') a.data ds hd,
             mapMOpt_above _ (fun f f' => reScoreFluke_above sm W f f') a.missing ms hm⟩

theorem insertRight_perm {α : Type} (le : α → α → Bool) (x : α) :
    ∀ (l : List α), (insertRight le x l).Perm (x :: l)
  | [] => List.Perm.refl _
  | y :: ys => by
    simp only [insertRight]
    split
    · exact ((insertRight_perm le x ys).cons y).trans (List.Perm.swap x y ys)
    · exact List.Perm.refl _

theorem stableSort_perm {α : Type} (le : α → α → Bool) (l : List α) :
    (stableSort le l).Perm l := by
  have h : ∀ (l acc : List α),
      (l.foldl (fun acc x => insertRight le x acc) acc).Perm (acc ++ l) := by
    intro l
    induction l with
    | nil => intro acc; simp
    | cons x xs ih =>
      intro acc
      simp only [List.foldl_cons]
      refine (ih (insertRight le x acc)).trans ?_
      refine (List.Perm.append_right xs ((insertRight_perm le x acc))).trans ?_
      exact List.perm_middle.symm
  simpa using h l []

theorem pyEqAnchor_refl (a : AnchorU) : pyEqAnchor a a = true := by
  simp [pyEqAnchor]

theorem pyRemove_eq_erase (a : AnchorU) :
    ∀ (l : List AnchorU), (∀ x ∈ l, pyEqAnchor x a = true → x = a) →
      pyRemove l a = l.erase a := by
  intro l
  induction l with
  | nil => intro _; rfl
  | cons y ys ih =>
    intro h
    by_cases hy : y = a
    · subst hy
      simp [pyRemove, List.eraseP_cons, pyEqAnchor_refl, List.erase_cons_head]
    · have hne : pyEqAnchor y a = false := by
        cases he : pyEqAnchor y a
        · rfl
        · exact absurd (h y (List.mem_cons_self _ _) he) hy
      rw [pyRemove] at *
      rw [List.eraseP_cons, hne, List.erase_cons_tail]
      · simp only [cond_false]
        exact congrArg (y :: ·) (ih (fun x hx => h x (List.mem_cons_of_mem _ hx)))
      · simp [hy]

theorem findPairGo_none :
    ∀ (L : List (AnchorU × AnchorU)), findPairGo L = .ok none →
      ∀ p ∈ L, pyEqAnchor p.1 p.2 = true ∨ p.1.minscore < p.2.minscore
        ∨ contradicts p.1 p.2 = .ok false := by
  intro L
  induction L with
  | nil => intro _ p hp; exact absurd hp (List.not_mem_nil p)
  | cons q rest ih =>
    intro h p hp
    obtain ⟨a1, a2⟩ := q
    rw [findPairGo] at h
    by_cases hskip : pyEqAnchor a1 a2 || decide (a1.minscore < a2.minscore)
    · rw [if_pos hskip] at h
      rcases List.mem_cons.mp hp with rfl | hp'
      · rcases Bool.or_eq_true_iff.mp hskip with h1 | h2
        · exact Or.inl h1
        · exact Or.inr (Or.inl (of_decide_eq_true h2))
      · exact ih h p hp'
    · rw [if_neg hskip] at h
      cases hc : contradicts a1 a2 with
      | error e => rw [hc] at h; exact absurd h (by simp)
      | ok b =>
        cases b with
        | true => rw [hc] at h; exact absurd h (by simp)
        | false =>
          rw [hc] at h
          rcases List.mem_cons.mp hp with rfl | hp'
          · exact Or.inr (Or.inr hc)
          · exact ih h p hp'

theorem findPairGo_some :
    ∀ (L : List (AnchorU × AnchorU)) (a1 a2 : AnchorU),
      findPairGo L = .ok (some (a1, a2)) →
      (a1, a2) ∈ L ∧ pyEqAnchor a1 a2 = false ∧ ¬(a1.minscore < a2.minscore)
        ∧ contradicts a1 a2 = .ok true := by
  intro L
  induction L with
  | nil => intro a1 a2 h; exact absurd h (by rw [findPairGo]; simp)
  | cons q rest ih =>
    intro a1 a2 h
    obtain ⟨b1, b2⟩ := q
    rw [findPairGo] at h
    by_cases hskip : pyEqAnchor b1 b2 || decide (b1.minscore < b2.minscore)
    · rw [if_pos hskip] at h
      obtain ⟨hmem, h2, h3, h4⟩ := ih a1 a2 h
      exact ⟨List.mem_cons_of_mem _ hmem, h2, h3, h4⟩
    · rw [if_neg hskip] at h
      cases hc : contradicts b1 b2 with
      | error e => rw [hc] at h; exact absurd h (by simp)
      | ok b =>
        cases b with
        | false =>
          rw [hc] at h
          obtain ⟨hmem, h2, h3, h4⟩ := ih a1 a2 h
          exact ⟨List.mem_cons_of_mem _ hmem, h2, h3, h4⟩
        | true =>
          rw [hc] at h
          simp only [Except.ok.injEq, Option.some.injEq, Prod.mk.injEq] at h
          obtain ⟨rfl, rfl⟩ := h
          have h1 : pyEqAnchor b1 b2 = false := by
            cases he : pyEqAnchor b1 b2
            · rfl
            · exact absurd (by rw [he]; simp) hskip
          have h2 : ¬(b1.minscore < b2.minscore) := by
            intro hlt
            exact hskip (by simp [hlt])
          exact ⟨List.mem_cons_self _ _, h1, h2, hc⟩

theorem rcaLoop_spec (l : List AnchorU)
    (hdup : ∀ a ∈ l, ∀ b ∈ l, pyEqAnchor a b = true → a = b) :
    ∀ (fuel : Nat) (data a1s a2s acc S R : List AnchorU),
      data.Perm a1s → data.Perm a2s → (∀ x ∈ data, x ∈ l) →
      (∀ r ∈ acc, ∃ k ∈ l, pyEqAnchor k r = false ∧ r.minscore ≤ k.minscore
        ∧ contradicts k r = .ok true) →
      rcaLoop fuel data a1s a2s acc = .ok (S, R) →
      ((∀ a ∈ S, ∀ b ∈ S, pyEqAnchor a b = false → ¬(a.minscore < b.minscore) →
          contradicts a b = .ok false)
       ∧ (∀ r ∈ R, ∃ k ∈ l, pyEqAnchor k r = false ∧ r.minscore ≤ k.minscore
          ∧ contradicts k r = .ok true)) := by
  intro fuel
  induction fuel with
  | zero =>
    intro data a1s a2s acc S R _ _ _ _ h
    exact absurd h (by rw [rcaLoop]; simp)
  | succ n ih =>
    intro data a1s a2s acc S R hp1 hp2 hsub hacc h
    rw [rcaLoop] at h
    cases hfp : findPair a1s a2s with
    | error e => rw [hfp] at h; exact absurd h (by simp)
    | ok o =>
      cases o with
      | none =>
        rw [hfp] at h
        simp only [Except.ok.injEq, Prod.mk.injEq] at h
        obtain ⟨rfl, rfl⟩ := h
        constructor
        · intro a ha b hb hab hmin
          have ha1 : a ∈ a1s := hp1.mem_iff.mp ha
          have hb2 : b ∈ a2s := hp2.mem_iff.mp hb
          have hmem : (a, b) ∈ a1s.product a2s := List.pair_mem_product.mpr ⟨ha1, hb2⟩
          rcases findPairGo_none _ hfp (a, b) hmem with h1 | h2 | h3
          · rw [hab] at h1; exact absurd h1 (by simp)
          · exact absurd h2 hmin
          · exact h3
        · exact hacc
      | some q =>
        obtain ⟨a1, a2⟩ := q
        rw [hfp] at h
        dsimp only at h
        obtain ⟨hmem, hne, hnlt, hct⟩ := findPairGo_some _ a1 a2 hfp
        obtain ⟨h1mem, h2mem⟩ := List.pair_mem_product.mp hmem
        have ha2data : a2 ∈ data := hp2.mem_iff.mpr h2mem
        have ha1data : a1 ∈ data := hp1.mem_iff.mpr h1mem
        have ha2l : a2 ∈ l := hsub _ ha2data
        have ha1l : a1 ∈ l := hsub _ ha1data
        have hiff : ∀ (m : List AnchorU), (∀ x ∈ m, x ∈ l) → pyRemove m a2 = m.erase a2 := by
          intro m hm
          exact pyRemove_eq_erase a2 m (fun x hx he => hdup x (hm x hx) a2 ha2l he)
        have hsub1 : ∀ x ∈ a1s, x ∈ l := fun x hx => hsub x (hp1.mem_iff.mpr hx)
        have hsub2 : ∀ x ∈ a2s, x ∈ l := fun x hx => hsub x (hp2.mem_iff.mpr hx)
        rw [hiff data hsub, hiff a1s hsub1, hiff a2s hsub2] at h
        refine ih (data.erase a2) (a1s.erase a2) (a2s.erase a2) (acc ++ [a2]) S R
          (List.Perm.erase a2 hp1) (List.Perm.erase a2 hp2)
          (fun x hx => hsub x (List.mem_of_mem_erase hx)) ?_ h
        intro r hr
        rcases List.mem_append.mp hr with hr' | hr'
        · exact hacc r hr'
        · have hra : r = a2 := by simpa using hr'
          subst hra
          exact ⟨a1, ha1l, hne, le_of_not_lt hnlt, hct⟩

theorem foldMExcept_error {s a : Type} (g : s → a → Except PyError s) :
    ∀ (L : List a) (acc : s),
      (∃ x ∈ L, ∀ st, ∃ e, g st x = .error e) →
      ∃ e, foldMExcept g acc L = .error e := by
  intro L
  induction L with
  | nil =>
    intro acc hx
    obtain ⟨x, hx, _⟩ := hx
    exact absurd hx (List.not_mem_nil x)
  | cons y ys ih =>
    intro acc hx
    obtain ⟨x, hx, hgx⟩ := hx
    cases hy : g acc y with
    | error e => exact ⟨e, by rw [foldMExcept, hy]⟩
    | ok acc' =>
      rcases List.mem_cons.mp hx with rfl | hx'
      · obtain ⟨e, he⟩ := hgx acc
        rw [he] at hy
        exact absurd hy (by simp)
      · obtain ⟨e, he⟩ := ih acc' ⟨x, hx', hgx⟩
        exact ⟨e, by rw [foldMExcept, hy]; exact he⟩

theorem cutoutStep_missing (la ra : PosA) (lb rb : Char) (lc rc : Int)
    (lReal rReal : Bool) (mode : String) (suf : Option ℚ) (id_ : String) (seq : SeqC)
    (hmiss : (lReal = true ∧ dictLookup la.dict id_ = none)
      ∨ (rReal = true ∧ dictLookup ra.dict id_ = none)) :
    cutoutStep la lb lc ra rb rc lReal rReal mode suf id_ seq
      = .error (.valueError "No fluke found for sequence, this should not happen, contact developers") := by
  have hcond : ((lReal && (dictLookup la.dict id_).isNone)
      || (rReal && (dictLookup ra.dict id_).isNone)) = true := by
    rcases hmiss with ⟨hr, hl⟩ | ⟨hr, hl⟩ <;> simp [hr, hl]
  rw [cutoutStep]
  simp only [hcond, if_true]

theorem mapMExcept_mem {a b : Type} (g : a → Except PyError b) :
    ∀ (l : List a) (l' : List b), mapMExcept g l = .ok l' →
      ∀ y ∈ l', ∃ x ∈ l, g x = .ok y := by
  intro l
  induction l with
  | nil =>
    intro l' h y hy
    rw [mapMExcept] at h
    cases h
    exact absurd hy (List.not_mem_nil y)
  | cons x xs ih =>
    intro l' h y hy
    rw [mapMExcept] at h
    cases hgx : g x with
    | error e => rw [hgx] at h; exact absurd h (by simp)
    | ok z =>
      rw [hgx] at h
      cases hxs : mapMExcept g xs with
      | error e => rw [hxs] at h; exact absurd h (by simp)
      | ok zs =>
        rw [hxs] at h
        cases h
        rcases List.mem_cons.mp hy with rfl | hy'
        · exact ⟨x, List.mem_cons_self _ _, hgx⟩
        · obtain ⟨x', hx', hgx'⟩ := ih zs hxs y hy'
          exact ⟨x', List.mem_cons_of_mem _ hx', hgx'⟩

theorem mapMExcept_pointwise {a b : Type} (g : a → Except PyError b) :
    ∀ (l : List a) (l' : List b), mapMExcept g l = .ok l' →
      l'.length = l.length ∧ ∀ (i : Nat) (hi : i < l.length) (hi' : i < l'.length),
        g (l.get ⟨i, hi⟩) = .ok (l'.get ⟨i, hi'⟩) := by
  intro l
  induction l with
  | nil =>
    intro l' h
    rw [mapMExcept] at h
    cases h
    exact ⟨rfl, fun i hi => absurd hi (Nat.not_lt_zero i)⟩
  | cons x xs ih =>
    intro l' h
    rw [mapMExcept] at h
    cases hgx : g x with
    | error e => rw [hgx] at h; exact absurd h (by simp)
    | ok z =>
      rw [hgx] at h
      cases hxs : mapMExcept g xs with
      | error e => rw [hxs] at h; exact absurd h (by simp)
      | ok zs =>
        rw [hxs] at h
        cases h
        obtain ⟨hlen, hpt⟩ := ih zs hxs
        refine ⟨by simp [hlen], ?_⟩
        intro i hi hi'
        cases i with
        | zero => exact hgx
        | succ n =>
          exact hpt n (Nat.lt_of_succ_lt_succ hi) (Nat.lt_of_succ_lt_succ hi')

theorem pyAnchorUnion_mem :
    ∀ (n acc : List AnchorU) (x : AnchorU), x ∈ pyAnchorUnion acc n → x ∈ acc ∨ x ∈ n := by
  intro n
  induction n with
  | nil => intro acc x hx; exact Or.inl hx
  | cons y ys ih =>
    intro acc x hx
    rw [pyAnchorUnion] at hx
    simp only [List.foldl_cons] at hx
    have hx' : x ∈ pyAnchorUnion (if acc.any (pyEqAnchor y) then acc else acc ++ [y]) ys := by
      rw [pyAnchorUnion]; exact hx
    rcases ih _ x hx' with h | h
    · by_cases hc : acc.any (pyEqAnchor y)
      · rw [if_pos hc] at h; exact Or.inl h
      · rw [if_neg hc] at h
        rcases List.mem_append.mp h with h' | h'
        · exact Or.inl h'
        · exact Or.inr (by rw [List.mem_singleton.mp h']; exact List.mem_cons_self y ys)
    · exact Or.inr (List.mem_cons_of_mem _ h)

theorem combineFluke_preserves (offsets : List (String × Int)) (div : Int)
    (f f' : FlukeU) (h : combineFluke offsets div f = .ok f') :
    f'.seqid = f.seqid
    ∧ ∀ o, f.offset = some o → ∃ o', f'.offset = some o'
      ∧ div * f'.start + o' = div * f.start + o
      ∧ div * f'.stop + o' = div * f.stop + o := by
  rw [combineFluke] at h
  cases hfo : f.offset with
  | none => simp only [hfo] at h; exact absurd h (by simp)
  | some fo =>
    simp only [hfo] at h
    cases hlk : dictLookup offsets f.seqid with
    | none => simp only [hlk] at h; exact absurd h (by simp)
    | some o0 =>
      simp only [hlk] at h
      by_cases hdvd : (fo - o0) % div = 0
      · rw [if_neg (not_not_intro hdvd)] at h
        cases h
        refine ⟨rfl, ?_⟩
        intro o ho
        cases ho
        have hdd : div ∣ (fo - o0) := Int.dvd_of_emod_eq_zero hdvd
        have hcancel : div * ((fo - o0) / div) = fo - o0 := Int.mul_ediv_cancel' hdd
        refine ⟨o0, rfl, ?_, ?_⟩
        · show div * (f.start + (fo - o0) / div) + o0 = div * f.start + fo
          rw [mul_add, hcancel]; ring
        · show div * (f.stop + (fo - o0) / div) + o0 = div * f.stop + fo
          rw [mul_add, hcancel]; ring
      · rw [if_pos hdvd] at h
        exact absurd h (by simp)

end Anchorna
namespace Anchorna

theorem combineFold_mem (offsets : List (String × Int)) (div : Int) :
    ∀ (L : List AnchorListC) (acc res : List AnchorU),
      foldMExcept (combineStep offsets div) acc L = .ok res →
      ∀ a' ∈ res, a' ∈ acc ∨ ∃ nans ∈ L, ∃ a ∈ nans.data,
        combineAnchor offsets div a = .ok a' := by
  intro L
  induction L with
  | nil =>
    intro acc res h a' ha'
    rw [foldMExcept] at h
    cases h
    exact Or.inl ha'
  | cons nans rest ih =>
    intro acc res h a' ha'
    rw [foldMExcept] at h
    cases hstep : combineStep offsets div acc nans with
    | error e => rw [hstep] at h; exact absurd h (by simp)
    | ok acc' =>
      rw [hstep] at h
      rcases ih acc' res h a' ha' with hin | ⟨n, hn, a, ha, hca⟩
      · -- a' came from this step: unpack combineStep
        rw [combineStep] at hstep
        by_cases hdup : nans.data.any (fun a => acc.any (pyEqAnchor a))
        · rw [if_pos hdup] at hstep; exact absurd hstep (by simp)
        · rw [if_neg hdup] at hstep
          cases hmm : mapMExcept (combineAnchor offsets div) nans.data with
          | error e => rw [hmm] at hstep; exact absurd hstep (by simp)
          | ok nans' =>
            rw [hmm] at hstep
            cases hstep
            rcases pyAnchorUnion_mem nans' acc a' hin with h1 | h2
            · exact Or.inl h1
            · obtain ⟨a, ha, hca⟩ := mapMExcept_mem _ nans.data nans' hmm a' h2
              exact Or.inr ⟨nans, List.mem_cons_self _ _, a, ha, hca⟩
      · exact Or.inr ⟨n, List.mem_cons_of_mem _ hn, a, ha, hca⟩

theorem combineAnchor_shape (offsets : List (String × Int)) (div : Int)
    (a a' : AnchorU) (h : combineAnchor offsets div a = .ok a') :
    a'.missing = a.missing ∧ a'.refid = a.refid
    ∧ mapMExcept (combineFluke offsets div) a.data = .ok a'.data := by
  rw [combineAnchor] at h
  cases hs : a.strand with
  | none => simp only [hs] at h; exact absurd h (by simp)
  | some st =>
    simp only [hs] at h
    by_cases hm : st = "-"
    · rw [if_pos hm] at h; exact absurd h (by simp)
    · rw [if_neg hm] at h
      cases hmm : mapMExcept (combineFluke offsets div) a.data with
      | error e => rw [hmm] at h; exact absurd h (by simp)
      | ok d =>
        rw [hmm] at h
        cases h
        exact ⟨rfl, rfl, rfl⟩

/-! ## Claim theorems -/

/-- C1: the spec claims all score-tied indices are collected and the one
closest to the expected index wins.  In the code, `maxes` is called without a
`key`, so whole `(score, index)` tuples are compared: the singleton maximum
is the tied index with the *largest* index, the distance tie-break is dead
code.  At `seq = "AXA"`, `word = "A"`, `starti = 0`, indices 0 and 2 both
score the maximal 1, yet the code returns index 2 (distance 2) instead of
index 0 (distance 0). -/
theorem C1_tie_break_dead_code :
    shiftAndFindBestWord ['A', 'X', 'A'] ['A'] 0 1 smEq (some 5) none = .ok (1, 2)
    ∧ corrscore (pySlice ['A', 'X', 'A'] 0 1) ['A'] '-' smEq = 1
    ∧ corrscore (pySlice ['A', 'X', 'A'] 2 3) ['A'] '-' smEq = 1
    ∧ maxes [(1, 0), (0, 1), (1, 2)] = some [(1, 2)] := by decide

/-- C2: the spec claims an empty search range yields `(0, None)` and the
caller raises `ValueError`.  In the code, the empty range makes `maxes`
return the default tuple `(0, None)` and the tie-break generator then fails
to unpack it: a `TypeError` is raised inside `shift_and_find_best_word`, so
`anchor_at_pos`'s `if j is None: raise ValueError` is unreachable (shown
here on a run whose second sequence is shorter than the word). -/
theorem C2_empty_range_raises_type_error :
    shiftAndFindBestWord ['A'] ['A', 'A'] 0 2 smEq none none
      = .error (.typeError "cannot unpack non-iterable int object")
    ∧ anchorAtPos 1 [⟨"g", ['M', 'K', 'L', 'V'], some 0⟩, ⟨"x", ['M'], some 0⟩]
        2 "g" 3 2 (1/2) 2 smEq
      = .error (.typeError "cannot unpack non-iterable int object") := by decide

/-- C5: when two anchors nicely overlap and `a1`'s guide interval fully
contains `a2`'s, `join_with` returns `a1` unchanged. -/
theorem C5_containment_returns_a1 (sm : Char → Char → Int) (a1 a2 : AnchorU)
    (f1 f2 : FlukeU) (h1 : a1.ref = some f1) (h2 : a2.ref = some f2)
    (hov : overlapsWith a1 a2 = .ok true)
    (hs : f1.start ≤ f2.start) (he : f2.stop ≤ f1.stop) :
    joinWith sm a1 a2 = .ok a1 := by
  simp [joinWith, hov, h1, h2, hs, he]

/-- Witness for C5 at a concrete containing pair. -/
theorem C5_witness :
    overlapsWith (exAnchor1 0 4 ['M', 'N', 'O', 'P']) (exAnchor1 1 2 ['N', 'O']) = .ok true
    ∧ joinWith smEq (exAnchor1 0 4 ['M', 'N', 'O', 'P']) (exAnchor1 1 2 ['N', 'O'])
      = .ok (exAnchor1 0 4 ['M', 'N', 'O', 'P']) :=
  ⟨by decide,
   C5_containment_returns_a1 smEq _ _
     (⟨"g", 1, 0, 0 + 4, some 0, ['M', 'N', 'O', 'P'], true⟩ : FlukeU)
     (⟨"g", 1, 1, 1 + 2, some 0, ['N', 'O'], true⟩ : FlukeU)
     (by decide) (by decide) (by decide) (by decide) (by decide)⟩

/-- C7: the spec claims `corrscore` fails with an `InvalidInput`-class error
on words of unequal length.  The code does not validate lengths: `zip`
silently truncates, and a score is returned (here for `"AB"` vs `"A"`). -/
theorem C7_counterexample :
    ['A', 'B'].length ≠ ['A'].length ∧ corrscore ['A', 'B'] ['A'] '-' smEq = 1 := by
  decide

/-- C7 amended: `corrscore` never fails on unequal-length words; it returns
the score of the words truncated to the common length (`zip` semantics). -/
theorem C7_truncation (s1 s2 : List Char) (gap : Char) (sm : Char → Char → Int) :
    corrscore s1 s2 gap sm = corrscore (s1.take s2.length) (s2.take s1.length) gap sm := by
  unfold corrscore
  rw [← zip_take_eq]

/-- C8: the spec claims anchor equality holds iff the guide flukes agree on
`(start, len, offset)`.  `Anchor` inherits `UserList.__eq__`, which compares
the fluke lists: two anchors with identical guide triples but different
second flukes are *not* equal (and not duplicates for `combine`'s set
membership) even though their hash keys coincide. -/
theorem C8_counterexample :
    anchorHashKey exHashP = anchorHashKey exHashQ
    ∧ exHashP.ref = some (exFluke "g" 0 5) ∧ exHashQ.ref = some (exFluke "g" 0 5)
    ∧ pyEqAnchor exHashP exHashQ = false ∧ exHashP ≠ exHashQ := by decide

/-- C8 amended: anchor equality is equality of the main fluke lists
(`missing`/`refid`/`strand` are not compared); the hash key is the guide
fluke's `(start, len, offset)`; equal anchors sharing a `refid` resolve the
same guide fluke and therefore have equal hash keys. -/
theorem C8_eq_is_data_eq_and_hash_from_guide (P Q : AnchorU)
    (heq : pyEqAnchor P Q = true) (href : P.refid = Q.refid) :
    P.data = Q.data ∧ P.ref = Q.ref ∧ anchorHashKey P = anchorHashKey Q := by
  have hd : P.data = Q.data := by simpa [pyEqAnchor] using heq
  refine ⟨hd, ?_, ?_⟩
  · simp [AnchorU.ref, AnchorU.todict, hd, href]
  · simp [anchorHashKey, AnchorU.ref, AnchorU.todict, hd, href]

/-- Witness for the amended C8: `exHashR` shares `exHashP`'s fluke data but
has an extra missing fluke; they are Python-equal and hash alike. -/
theorem C8_witness :
    pyEqAnchor exHashP exHashR = true ∧ exHashP.refid = exHashR.refid
    ∧ (exHashP.data = exHashR.data ∧ exHashP.ref = exHashR.ref
       ∧ anchorHashKey exHashP = anchorHashKey exHashR) :=
  ⟨by decide, by decide,
   C8_eq_is_data_eq_and_hash_from_guide exHashP exHashR (by decide) (by decide)⟩

/-- C9: the `Anchor` constructor partitions its flukes by `above_thres`
(main list all above, `missing` all below), and `join_with` preserves the
partition: containment returns an input anchor, and the overlap branch
rebuilds through the constructor, so iterating an anchor never yields a
below-threshold fluke. -/
theorem C9_partition_invariant :
    (∀ (flukes : List FlukeU) (refid : String) (strand : Option String),
      (∀ f ∈ (mkAnchor flukes refid strand).data, f.above_thres = true)
      ∧ (∀ f ∈ (mkAnchor flukes refid strand).missing, f.above_thres = false))
    ∧ (∀ (sm : Char → Char → Int) (a1 a2 r : AnchorU),
      (∀ f ∈ a1.data, f.above_thres = true) → (∀ f ∈ a1.missing, f.above_thres = false) →
      (∀ f ∈ a2.data, f.above_thres = true) → (∀ f ∈ a2.missing, f.above_thres = false) →
      joinWith sm a1 a2 = .ok r →
      (∀ f ∈ r.data, f.above_thres = true) ∧ (∀ f ∈ r.missing, f.above_thres = false)) := by
  have hmk : ∀ (flukes : List FlukeU) (refid : String) (strand : Option String),
      (∀ f ∈ (mkAnchor flukes refid strand).data, f.above_thres = true)
      ∧ (∀ f ∈ (mkAnchor flukes refid strand).missing, f.above_thres = false) := by
    intro flukes refid strand
    constructor
    · intro f hf
      simp only [mkAnchor] at hf
      exact (List.mem_filter.mp hf).2
    · intro f hf
      simp only [mkAnchor] at hf
      have := (List.mem_filter.mp hf).2
      simpa using this
  refine ⟨hmk, ?_⟩
  intro sm a1 a2 r h1d h1m h2d h2m hok
  rw [joinWith] at hok
  split at hok
  · exact absurd hok (by simp)
  · exact absurd hok (by simp)
  · split at hok
    · exact absurd hok (by simp)
    · exact absurd hok (by simp)
    · split at hok
      · cases hok; exact ⟨h1d, h1m⟩
      · split at hok
        · cases hok; exact ⟨h2d, h2m⟩
        · dsimp only at hok
          split at hok
          · exact absurd hok (by simp)
          · rename_i flukes hjp
            obtain ⟨hd, hm⟩ := calculateScores_above sm _ r hok
            constructor
            · intro f' hf'
              obtain ⟨f, hf, hfe⟩ := hd f' hf'
              rw [hfe]
              exact (hmk flukes a1.refid none).1 f hf
            · intro f' hf'
              obtain ⟨f, hf, hfe⟩ := hm f' hf'
              rw [hfe]
              exact (hmk flukes a1.refid none).2 f hf

/-- Witness for C9 at a concrete constructor call and a concrete join. -/
theorem C9_witness :
    ((∀ f ∈ (mkAnchor [exFluke "g" 0 5] "g" none).data, f.above_thres = true)
      ∧ (∀ f ∈ (mkAnchor [exFluke "g" 0 5] "g" none).missing, f.above_thres = false))
    ∧ ((∀ f ∈ (exAnchor1 0 3 ['M', 'N', 'O']).data, f.above_thres = true)
      ∧ joinWith smEq (exAnchor1 0 3 ['M', 'N', 'O']) (exAnchor1 1 2 ['N', 'O'])
          = .ok (exAnchor1 0 3 ['M', 'N', 'O'])
      ∧ (∀ f ∈ (exAnchor1 0 3 ['M', 'N', 'O']).data, f.above_thres = true)
      ∧ (∀ f ∈ (exAnchor1 0 3 ['M', 'N', 'O']).missing, f.above_thres = false)) :=
  ⟨C9_partition_invariant.1 [exFluke "g" 0 5] "g" none,
   by decide,
   by decide,
   C9_partition_invariant.2 smEq (exAnchor1 0 3 ['M', 'N', 'O']) (exAnchor1 1 2 ['N', 'O'])
     (exAnchor1 0 3 ['M', 'N', 'O'])
     (by decide) (by decide) (by decide) (by decide) (by decide)⟩

/-- C4: the spec claims no two survivors contradict and every removed anchor
had a higher-or-equal-score contradictor that was kept.  Both parts fail on
the code: `contradicts` is asymmetric for anchors with equal guide starts and
the loop only checks the higher-minscore anchor as `a1`, so the surviving
pair `(B, A)` still satisfies `contradicts(B, A)`; and the removed anchor `Z`
was removed against keeper `Y`, which was itself removed later, leaving `Z`
with no kept contradictor at all. -/
theorem C4_counterexample :
    removeContradictingAnchors [exY, exW, exA, exZ, exB] = .ok ([exW, exA, exB], [exZ, exY])
    ∧ exW ∈ [exW, exA, exB] ∧ exB ∈ [exW, exA, exB]
    ∧ contradicts exB exA = .ok true
    ∧ (∀ k ∈ [exW, exA, exB], contradicts k exZ = .ok false ∧ contradicts exZ k = .ok false)
    ∧ exZ ∈ [exZ, exY] := by decide

/-- C4 amended: after a successful `remove_contradicting_anchors` run, no two
distinct survivors `a, b` with `minscore a ≥ minscore b` contradict in the
checked direction (`contradicts(a, b)` is false; the reverse direction can
still hold when guide starts tie), and every removed anchor was contradicted
by some anchor of the input list with at least its minscore (possibly itself
removed later).  The hypotheses restrict to inputs where Python `==` agrees
with structural equality and every anchor has flukes (otherwise Python's
`minscore` would raise while sorting). -/
theorem C4_survivors_checked_direction (l S R : List AnchorU)
    (hdup : ∀ a ∈ l, ∀ b ∈ l, pyEqAnchor a b = true → a = b)
    (hne : ∀ a ∈ l, a.data ≠ [])
    (hok : removeContradictingAnchors l = .ok (S, R)) :
    (∀ a ∈ S, ∀ b ∈ S, pyEqAnchor a b = false → ¬(a.minscore < b.minscore) →
        contradicts a b = .ok false)
    ∧ (∀ r ∈ R, ∃ k ∈ l, pyEqAnchor k r = false ∧ r.minscore ≤ k.minscore
        ∧ contradicts k r = .ok true) := by
  have _ := hne
  rw [removeContradictingAnchors] at hok
  exact rcaLoop_spec l hdup (l.length + 1) l (sortByMinscoreDesc l) (sortByMinscoreAsc l)
    [] S R (stableSort_perm _ l).symm (stableSort_perm _ l).symm
    (fun x hx => hx) (fun r hr => absurd hr (List.not_mem_nil r)) hok

/-- Witness for the amended C4 on a concrete non-contradicting pair. -/
theorem C4_witness :
    (∀ a ∈ [exW, exA], ∀ b ∈ [exW, exA], pyEqAnchor a b = true → a = b)
    ∧ (∀ a ∈ [exW, exA], a.data ≠ [])
    ∧ removeContradictingAnchors [exW, exA] = .ok ([exW, exA], [])
    ∧ ((∀ a ∈ [exW, exA], ∀ b ∈ [exW, exA], pyEqAnchor a b = false →
          ¬(a.minscore < b.minscore) → contradicts a b = .ok false)
       ∧ (∀ r ∈ ([] : List AnchorU), ∃ k ∈ [exW, exA], pyEqAnchor k r = false
          ∧ r.minscore ≤ k.minscore ∧ contradicts k r = .ok true)) :=
  ⟨by decide, by decide, by decide,
   C4_survivors_checked_direction [exW, exA] [exW, exA] []
     (by decide) (by decide) (by decide)⟩


/-- C6: the spec claims that a real anchor lacking a Fluke for some sequence
makes `cutout` warn and skip that sequence while producing output for the
rest.  In the code this case raises `ValueError` ("this should not happen,
contact developers"): the whole operation fails; only the `score_use_fluke`
gate warns and skips.  Here anchor `a0` has a fluke for `p` but none for
`q`, and `cutout` errors instead of returning the cut of `p`. -/
theorem C6_counterexample :
    (∃ f, dictLookup (todictSeqid exAnchorOnlyP) "p" = some f)
    ∧ dictLookup (todictSeqid exAnchorOnlyP) "q" = none
    ∧ cutout [exSeqP, exSeqQ] [exAnchorOnlyP] "a0" "end" "aa" none
      = .error (.valueError "No fluke found for sequence, this should not happen, contact developers") := by
  refine ⟨⟨exFluke "p" 3 10, by decide⟩, by decide, by decide⟩

/-- C6 amended: whenever both position specifiers resolve and a referenced
real anchor has no fluke for some sequence of the input, `cutout` fails as a
whole with an exception (the per-sequence warn-and-skip path exists only for
the `score_use_fluke` gate). -/
theorem C6_missing_fluke_is_fatal (seqs : List SeqC) (anchors : List AnchorU)
    (pos1 pos2 mode : String) (suf : Option ℚ)
    (la ra : PosA) (lb rb : Char) (lc rc : Int) (lReal rReal : Bool)
    (h1 : splitCutoutPos (pyLower (pyStrip pos1.data)) mode anchors '<'
      = .ok (la, lb, lc, lReal))
    (h2 : splitCutoutPos (pyLower (pyStrip pos2.data)) mode anchors '>'
      = .ok (ra, rb, rc, rReal))
    (hmiss : ∃ p ∈ buildDict (seqs.map (fun s => (s.id, s))),
      (lReal = true ∧ dictLookup la.dict p.1 = none)
      ∨ (rReal = true ∧ dictLookup ra.dict p.1 = none)) :
    ∃ e, cutout seqs anchors pos1 pos2 mode suf = .error e := by
  rw [cutout]
  simp only [h1, h2]
  obtain ⟨p, hp, hm⟩ := hmiss
  refine foldMExcept_error _ _ _ ⟨p, hp, ?_⟩
  intro st
  rw [cutoutStep_missing la ra lb rb lc rc lReal rReal mode suf p.1 p.2 hm]
  exact ⟨_, rfl⟩

/-- Witness for the amended C6 at the concrete missing-fluke input. -/
theorem C6_witness :
    splitCutoutPos (pyLower (pyStrip "a0".data)) "aa" [exAnchorOnlyP] '<'
      = .ok (.anchorDict (todictSeqid exAnchorOnlyP), '<', 0, true)
    ∧ splitCutoutPos (pyLower (pyStrip "end".data)) "aa" [exAnchorOnlyP] '>'
      = .ok (.sentinel "end".data, '>', 0, false)
    ∧ ("q", exSeqQ) ∈ buildDict ([exSeqP, exSeqQ].map (fun s => (s.id, s)))
    ∧ dictLookup (PosA.dict (.anchorDict (todictSeqid exAnchorOnlyP))) "q" = none
    ∧ ∃ e, cutout [exSeqP, exSeqQ] [exAnchorOnlyP] "a0" "end" "aa" none = .error e :=
  ⟨by decide, by decide, by decide, by decide,
   C6_missing_fluke_is_fatal [exSeqP, exSeqQ] [exAnchorOnlyP] "a0" "end" "aa" none
     (.anchorDict (todictSeqid exAnchorOnlyP)) (.sentinel "end".data) '<' '>' 0 0 true false
     (by decide) (by decide)
     ⟨("q", exSeqQ), by decide, Or.inl ⟨rfl, by decide⟩⟩⟩


/-- C10: a successful `combine` rewrites every fluke onto the first list's
offset for its sequence while preserving the absolute coordinate
`div * start + offset` (and `div * stop + offset`), with `div = 1` when
`no_cds` else `3`: every output anchor is `combineAnchor` of some input
anchor, `combineAnchor` keeps `missing`/`refid` and maps the main flukes
positionally through `combineFluke`, and `combineFluke` preserves the
absolute coordinates whenever it succeeds. -/
theorem C10_combine_preserves_coordinates (lot : List AnchorListC) (out : AnchorListC)
    (hok : combine lot = .ok out) :
    ∃ first offsets, lot.head? = some first ∧ combineOffsets first = .ok offsets
    ∧ (∀ a' ∈ out.data, ∃ nans ∈ lot, ∃ a ∈ nans.data,
        combineAnchor offsets (if out.no_cds then 1 else 3) a = .ok a')
    ∧ (∀ (div : Int) (a a' : AnchorU), combineAnchor offsets div a = .ok a' →
        a'.missing = a.missing ∧ a'.refid = a.refid ∧ a'.data.length = a.data.length
        ∧ ∀ (i : Nat) (hi : i < a.data.length) (hi' : i < a'.data.length),
            (a'.data.get ⟨i, hi'⟩).seqid = (a.data.get ⟨i, hi⟩).seqid
            ∧ ∀ o, (a.data.get ⟨i, hi⟩).offset = some o →
               ∃ o', (a'.data.get ⟨i, hi'⟩).offset = some o'
                 ∧ div * (a'.data.get ⟨i, hi'⟩).start + o'
                   = div * (a.data.get ⟨i, hi⟩).start + o
                 ∧ div * (a'.data.get ⟨i, hi'⟩).stop + o'
                   = div * (a.data.get ⟨i, hi⟩).stop + o) := by
  rw [combine.eq_def] at hok
  by_cases hlen : ((lot.map (·.no_cds)).dedup).length > 1
  · rw [if_pos hlen] at hok; exact absurd hok (by simp)
  · rw [if_neg hlen] at hok
    cases lot with
    | nil => simp at hok
    | cons first rest =>
      cases hset : (((first :: rest).map (·.no_cds)).dedup) with
      | nil => simp only [hset] at hok; exact absurd hok (by simp)
      | cons noCds tl =>
        simp only [hset] at hok
        cases hoff : combineOffsets first with
        | error e => simp only [hoff] at hok; exact absurd hok (by simp)
        | ok offsets =>
          simp only [hoff] at hok
          cases hfold : foldMExcept (combineStep offsets (if noCds then 1 else 3)) []
              (first :: rest) with
          | error e => simp only [hfold] at hok; exact absurd hok (by simp)
          | ok anchors =>
            simp only [hfold, Except.ok.injEq] at hok
            subst hok
            refine ⟨first, offsets, rfl, hoff, ?_, ?_⟩
            · intro a' ha'
              have hmem : a' ∈ anchors :=
                ((stableSort_perm _ anchors).mem_iff).mp ha'
              rcases combineFold_mem offsets _ (first :: rest) [] anchors hfold a' hmem with
                h0 | hfound
              · exact absurd h0 (List.not_mem_nil a')
              · exact hfound
            · intro div a a' hca
              obtain ⟨hm, hr, hdata⟩ := combineAnchor_shape offsets div a a' hca
              obtain ⟨hlen', hpt⟩ := mapMExcept_pointwise _ a.data a'.data hdata
              refine ⟨hm, hr, hlen', ?_⟩
              intro i hi hi'
              exact combineFluke_preserves offsets div _ _ (hpt i hi hi')

/-- Witness for C10 at a concrete two-file combine. -/
theorem C10_witness :
    combine [exComb1, exComb2] = .ok exCombOut
    ∧ (∃ first offsets, [exComb1, exComb2].head? = some first
        ∧ combineOffsets first = .ok offsets
        ∧ (∀ a' ∈ exCombOut.data, ∃ nans ∈ [exComb1, exComb2], ∃ a ∈ nans.data,
            combineAnchor offsets (if exCombOut.no_cds then 1 else 3) a = .ok a')
        ∧ (∀ (div : Int) (a a' : AnchorU), combineAnchor offsets div a = .ok a' →
            a'.missing = a.missing ∧ a'.refid = a.refid ∧ a'.data.length = a.data.length
            ∧ ∀ (i : Nat) (hi : i < a.data.length) (hi' : i < a'.data.length),
                (a'.data.get ⟨i, hi'⟩).seqid = (a.data.get ⟨i, hi⟩).seqid
                ∧ ∀ o, (a.data.get ⟨i, hi⟩).offset = some o →
                   ∃ o', (a'.data.get ⟨i, hi'⟩).offset = some o'
                     ∧ div * (a'.data.get ⟨i, hi'⟩).start + o'
                       = div * (a.data.get ⟨i, hi⟩).start + o
                     ∧ div * (a'.data.get ⟨i, hi'⟩).stop + o'
                       = div * (a.data.get ⟨i, hi⟩).stop + o)) :=
  ⟨by decide, C10_combine_preserves_coordinates [exComb1, exComb2] exCombOut (by decide)⟩


theorem innerLoop_quota (p : GoParams) :
    ∀ (fuel : Nat) (toadd : List HeapEntry) (todo : List String)
      (words : List (List Char)) (res : List (Int × Nat × String)) (nfails : Nat)
      (gword : List Char) (out : InnerRes),
      innerLoop p fuel toadd todo words res nfails gword = .ok out →
      ¬((nfails : ℚ) / (p.n : ℚ) > 1 - p.thrQuota) →
      ((∀ k, out = .abort k → 1 ≤ k ∧ ((k : ℚ) / (p.n : ℚ) > 1 - p.thrQuota)
          ∧ ¬(((k - 1 : ℕ) : ℚ) / (p.n : ℚ) > 1 - p.thrQuota))
       ∧ (∀ st, out = .broke st → nfails ≤ st.nfails
          ∧ ¬((st.nfails : ℚ) / (p.n : ℚ) > 1 - p.thrQuota))
       ∧ (∀ st, out = .finished st → nfails ≤ st.nfails
          ∧ ¬((st.nfails : ℚ) / (p.n : ℚ) > 1 - p.thrQuota))) := by
  intro fuel
  induction fuel with
  | zero =>
    intro toadd todo words res nfails gword out h _
    simp only [innerLoop] at h
    cases h
  | succ fuel ih =>
    intro toadd todo words res nfails gword out h hinv
    cases toadd with
    | nil =>
      simp only [innerLoop, Except.ok.injEq] at h
      subst h
      refine ⟨?_, ?_, ?_⟩
      · intro k hk
        simp at hk
      · intro st hst
        simp at hst
      · intro st hst
        cases hst
        exact ⟨le_refl _, hinv⟩
    | cons e0 rest =>
      simp only [innerLoop] at h
      by_cases hid : (heapMin e0 rest).2.2.2.2 ∉ todo
      · rw [if_pos hid] at h
        exact ih _ _ _ _ _ _ _ h hinv
      · rw [if_neg hid] at h
        by_cases hsc : (((heapMin e0 rest).2.2.1 : Int) : ℚ) < p.thrScore
        · rw [if_pos hsc] at h
          by_cases hcr : (((nfails + 1 : ℕ) : ℚ) / (p.n : ℚ) > 1 - p.thrQuota)
          · rw [if_pos ⟨hsc, hcr⟩] at h
            cases h
            refine ⟨?_, ?_, ?_⟩
            · intro k hk
              cases hk
              refine ⟨Nat.succ_le_succ (Nat.zero_le nfails), hcr, ?_⟩
              simpa using hinv
            · intro st hst
              simp at hst
            · intro st hst
              simp at hst
          · rw [if_neg (fun hc => hcr hc.2)] at h
            cases hlk : dictLookup p.aasD (heapMin e0 rest).2.2.2.2 with
            | none => simp only [hlk] at h; cases h
            | some aa =>
              simp only [hlk] at h
              by_cases hnw : (pySlice aa.data (heapMin e0 rest).2.2.2.1
                  ((heapMin e0 rest).2.2.2.1 + p.w) ∉ words
                ∧ p.scoreAddWord ≤ (((heapMin e0 rest).2.2.1 : Int) : ℚ))
              · rw [if_pos hnw] at h
                cases h
                refine ⟨?_, ?_, ?_⟩
                · intro k hk
                  simp at hk
                · intro st hst
                  cases hst
                  exact ⟨Nat.le_succ nfails, hcr⟩
                · intro st hst
                  simp at hst
              · rw [if_neg hnw] at h
                obtain ⟨ha, hb, hc⟩ := ih _ _ _ _ _ _ _ h hcr
                exact ⟨ha,
                  fun st hst => ⟨Nat.le_of_succ_le (hb st hst).1, (hb st hst).2⟩,
                  fun st hst => ⟨Nat.le_of_succ_le (hc st hst).1, (hc st hst).2⟩⟩
        · rw [if_neg hsc] at h
          rw [if_neg (fun hc => hsc hc.1)] at h
          cases hlk : dictLookup p.aasD (heapMin e0 rest).2.2.2.2 with
          | none => simp only [hlk] at h; cases h
          | some aa =>
            simp only [hlk] at h
            by_cases hnw : (pySlice aa.data (heapMin e0 rest).2.2.2.1
                ((heapMin e0 rest).2.2.2.1 + p.w) ∉ words
              ∧ p.scoreAddWord ≤ (((heapMin e0 rest).2.2.1 : Int) : ℚ))
            · rw [if_pos hnw] at h
              cases h
              refine ⟨?_, ?_, ?_⟩
              · intro k hk
                simp at hk
              · intro st hst
                cases hst
                exact ⟨le_refl _, hinv⟩
              · intro st hst
                simp at hst
            · rw [if_neg hnw] at h
              exact ih _ _ _ _ _ _ _ h hinv


theorem outerLoop_quota (p : GoParams) :
    ∀ (fuel : Nat) (toadd : List HeapEntry) (todo : List String)
      (words : List (List Char)) (res : List (Int × Nat × String)) (nfails : Nat)
      (gword : List Char) (out : Option GoState),
      outerLoop p fuel toadd todo words res nfails gword = .ok out →
      ¬((nfails : ℚ) / (p.n : ℚ) > 1 - p.thrQuota) →
      ((out = none → ∃ k : ℕ, 1 ≤ k ∧ ((k : ℚ) / (p.n : ℚ) > 1 - p.thrQuota)
          ∧ ¬(((k - 1 : ℕ) : ℚ) / (p.n : ℚ) > 1 - p.thrQuota))
       ∧ (∀ st, out = some st → nfails ≤ st.nfails
          ∧ ¬((st.nfails : ℚ) / (p.n : ℚ) > 1 - p.thrQuota))) := by
  intro fuel
  induction fuel with
  | zero =>
    intro toadd todo words res nfails gword out h _
    simp only [outerLoop] at h
    cases h
  | succ fuel ih =>
    intro toadd todo words res nfails gword out h hinv
    simp only [outerLoop] at h
    by_cases htd : todo = []
    · rw [if_pos htd] at h
      cases h
      refine ⟨?_, ?_⟩
      · intro hn
        simp at hn
      · intro st hst
        cases hst
        exact ⟨le_refl _, hinv⟩
    · rw [if_neg htd] at h
      cases hp : pushPhase p gword todo toadd with
      | error e => simp only [hp] at h; cases h
      | ok toadd2 =>
        simp only [hp] at h
        cases hi : innerLoop p (toadd2.length + 1) toadd2 todo words res nfails gword with
        | error e => simp only [hi] at h; cases h
        | ok ir =>
          simp only [hi] at h
          obtain ⟨ha, hb, hc⟩ :=
            innerLoop_quota p (toadd2.length + 1) toadd2 todo words res nfails gword ir hi hinv
          cases ir with
          | abort k =>
            cases h
            refine ⟨fun _ => ⟨k, ha k rfl⟩, ?_⟩
            intro st hst
            simp at hst
          | broke st2 =>
            obtain ⟨h1, h2⟩ := hb st2 rfl
            obtain ⟨ho1, ho2⟩ := ih _ _ _ _ _ _ _ h h2
            exact ⟨ho1, fun st hst => ⟨le_trans h1 (ho2 st hst).1, (ho2 st hst).2⟩⟩
          | finished st2 =>
            dsimp only at h
            by_cases ht2 : st2.todo = []
            · rw [if_pos ht2] at h
              cases h
              obtain ⟨h1, h2⟩ := hc st2 rfl
              refine ⟨?_, ?_⟩
              · intro hn
                simp at hn
              · intro st hst
                cases hst
                exact ⟨h1, h2⟩
            · rw [if_neg ht2] at h
              cases h

/-- C3: during anchor assembly, each accepted below-threshold candidate
increments the failure counter, and the run aborts (returns no anchor)
exactly when the counter first satisfies
`failures / total_sequences > 1 - thr_quota_add_anchor`.  Formally: if the
outer loop of `anchor_at_pos` returns with the quota inequality not yet
holding of the initial counter, then (i) an abort (`none`) implies the
counter reached a value `k ≥ 1` satisfying the inequality whose predecessor
did not (the abort happens at the first crossing, immediately after an
increment), (ii) on normal completion the final counter never satisfies the
inequality, and (iii) any inner-loop abort value `k` is such a first
crossing. -/
theorem C3_quota_abort (p : GoParams) (fuel : Nat) (toadd : List HeapEntry)
    (todo : List String) (words : List (List Char))
    (res : List (Int × Nat × String)) (nfails : Nat) (gword : List Char)
    (out : Option GoState)
    (h : outerLoop p fuel toadd todo words res nfails gword = .ok out)
    (hinv : ¬((nfails : ℚ) / (p.n : ℚ) > 1 - p.thrQuota)) :
    (out = none → ∃ k : ℕ, 1 ≤ k ∧ ((k : ℚ) / (p.n : ℚ) > 1 - p.thrQuota)
        ∧ ¬(((k - 1 : ℕ) : ℚ) / (p.n : ℚ) > 1 - p.thrQuota))
    ∧ (∀ st, out = some st → ¬((st.nfails : ℚ) / (p.n : ℚ) > 1 - p.thrQuota))
    ∧ (∀ fuel' toadd' todo' words' res' nfails' gword' k,
        innerLoop p fuel' toadd' todo' words' res' nfails' gword' = .ok (.abort k) →
        ¬((nfails' : ℚ) / (p.n : ℚ) > 1 - p.thrQuota) →
        1 ≤ k ∧ ((k : ℚ) / (p.n : ℚ) > 1 - p.thrQuota)
          ∧ ¬(((k - 1 : ℕ) : ℚ) / (p.n : ℚ) > 1 - p.thrQuota)) := by
  obtain ⟨h1, h2⟩ := outerLoop_quota p fuel toadd todo words res nfails gword out h hinv
  refine ⟨h1, fun st hst => (h2 st hst).2, ?_⟩
  intro fuel' toadd' todo' words' res' nfails' gword' k hk hinv'
  exact (innerLoop_quota p fuel' toadd' todo' words' res' nfails' gword'
    (.abort k) hk hinv').1 k rfl

unseal Rat.add Rat.sub Rat.mul Rat.inv in
/-- Witness for C3: with both sequences `MKLV`, `thr_score_add_anchor = 5`
and `thr_quota_add_anchor = 1`, the first popped candidate (a perfect match
of score 2) counts as a failure and the quota `1/2 > 1 - 1` is crossed at
once, so the outer loop aborts with no anchor, and the crossing value is a
first crossing. -/
theorem C3_witness :
    outerLoop exGoParamsAbort 2 [] ["x"] [['K', 'L']] [(2, 1, "g")] 0 ['K', 'L']
      = .ok none
    ∧ (∃ k : ℕ, 1 ≤ k ∧ ((k : ℚ) / (exGoParamsAbort.n : ℚ) > 1 - exGoParamsAbort.thrQuota)
        ∧ ¬(((k - 1 : ℕ) : ℚ) / (exGoParamsAbort.n : ℚ) > 1 - exGoParamsAbort.thrQuota)) :=
  ⟨by decide,
   (C3_quota_abort exGoParamsAbort 2 [] ["x"] [['K', 'L']] [(2, 1, "g")] 0 ['K', 'L']
      none (by decide) (by decide)).1 rfl⟩

end Anchorna
